import Mathlib

/-!
Shallow embedding of the salla-analytics ingestion pipeline
(src/app/ingestion/{mapper,aggregator,validators}.py and the
validation gate in src/app/ui/pages/upload.py), with theorems
settling the frozen claims about its specification.

Modelling conventions:
* pandas cell values are modelled by `Cell` (null / string / rational
  number / datetime as an integer timestamp); `Cell.null` stands for
  NaN and NaT alike.
* a DataFrame is an association list of named columns (`DFrame`);
  well-formedness (all columns of equal length) is a hypothesis where
  row-wise reasoning needs it.
* the external libraries the code calls (fuzzywuzzy's two similarity
  ratios, pandas' string-to-number and string-to-datetime parsers) are
  not code of this repository; they are passed in as parameters
  (`R`, `T`, `Parsers`), so every theorem quantifies over their
  behaviour and every witness instantiates them concretely.
* floating-point arithmetic is modelled exactly over `ℚ`.
-/

namespace Salla

/-- Cell values of a pandas column: NaN/NaT, strings, numbers
(floats modelled as rationals) and datetimes (integer timestamps). -/
inductive Cell where
  | null : Cell
  | str  : String → Cell
  | num  : ℚ → Cell
  | date : Int → Cell
deriving DecidableEq, Repr

/-- A DataFrame: named columns in order, each a list of cells. -/
structure DFrame where
  cols : List (String × List Cell)
deriving DecidableEq, Repr

def DFrame.colNames (df : DFrame) : List String := df.cols.map Prod.fst

/-- Column lookup, `df[name]`; `none` when the column is absent. -/
def DFrame.getCol (df : DFrame) (name : String) : Option (List Cell) :=
  (df.cols.find? (fun e => e.1 = name)).map Prod.snd

/-- Row count `len(df)`: the length of the first column (0 for a frame
with no columns, as for an empty pandas DataFrame). -/
def DFrame.nrows (df : DFrame) : Nat :=
  match df.cols with
  | [] => 0
  | c :: _ => c.2.length

/-- Replace the cells of an existing column, `df[name] = values`. -/
def DFrame.setCol (df : DFrame) (name : String) (values : List Cell) : DFrame :=
  ⟨df.cols.map (fun e => if e.1 = name then (e.1, values) else e)⟩

/-- Well-formedness: every column holds exactly `n` cells. -/
def DFrame.WF (df : DFrame) (n : Nat) : Prop :=
  ∀ e ∈ df.cols, e.2.length = n

/-- The seven date-format candidates of the coercion cascade in
`DataValidator._validate_data_types` (`None` = pandas auto-detection). -/
inductive DateFmt where
  | ymd      -- %Y-%m-%d
  | dmySlash -- %d/%m/%Y
  | mdySlash -- %m/%d/%Y
  | ymdSlash -- %Y/%m/%d
  | dmyDot   -- %d.%m.%Y
  | dmyDash  -- %d-%m-%Y
deriving DecidableEq, Repr

/-- Modelled from the spec: the external parsing facilities the
pipeline calls but does not implement — pandas' `to_numeric` string
parser, `to_datetime` (per candidate format, `none` = auto-detect) on
non-datetime cells, and the clock `pd.Timestamp.now()`. -/
structure Parsers where
  parseNum : String → Option ℚ
  toDate : Option DateFmt → Cell → Option Int
  now : Int

/-- The epoch floor `pd.Timestamp('2000-01-01')` of the date
business rule, as an integer timestamp (days since 1970-01-01). -/
def epoch2000 : Int := 10957

/-- pandas `pd.to_numeric(cell, errors='coerce')` for one cell.
Datetime cells are viewed through their integer timestamp. -/
def numCoerce (P : Parsers) : Cell → Cell
  | .null => .null
  | .num q => .num q
  | .str s => match P.parseNum s with
      | some q => .num q
      | none => .null
  | .date d => .num d

/-- pandas `pd.to_datetime(cell, format=f, errors='coerce')` for one
cell: datetimes pass through, NaN stays NaT, other cells go through
the external parser. -/
def dtCoerce (P : Parsers) (f : Option DateFmt) : Cell → Cell
  | .null => .null
  | .date d => .date d
  | c => match P.toDate f c with
      | some d => .date d
      | none => .null

/-- Python `str(value)` for a cell (`series.astype(str)`): NaN prints
as a non-empty token (`nan`), as do numbers and datetimes; only the
exact text of string cells matters to the pipeline's emptiness checks. -/
def cellStr : Cell → String
  | .null => "nan"
  | .str s => s
  | .num _ => "num"
  | .date _ => "date"

/-! ## SchemaMatcher — src/app/ingestion/mapper.py

String primitives (`lower`, `strip`, prefix/suffix tests) are defined
here by structural recursion over the character list so that concrete
instances evaluate inside the kernel; they model the corresponding
Python string methods for the ASCII range the claims exercise. -/

/-- ASCII lower-casing of one character (Python `str.lower`). -/
def charLower (c : Char) : Char :=
  if 'A' ≤ c ∧ c ≤ 'Z' then Char.ofNat (c.toNat + 32) else c

/-- Python `str.lower()`. -/
def strLower (s : String) : String := ⟨s.data.map charLower⟩

/-- Python `str.strip()`: drop whitespace from both ends. -/
def strTrim (s : String) : String :=
  ⟨((s.data.dropWhile Char.isWhitespace).reverse.dropWhile
      Char.isWhitespace).reverse⟩

/-- Bool test of the first list being a prefix of the second. -/
def listStartsAux [DecidableEq α] : List α → List α → Bool
  | [], _ => true
  | _ :: _, [] => false
  | a :: as, b :: bs => a = b && listStartsAux as bs

/-- Python `s.startswith(pre)`. -/
def strStarts (s pre : String) : Bool := listStartsAux pre.data s.data

/-- Python `s.endswith(suf)`. -/
def strEnds (s suf : String) : Bool :=
  listStartsAux suf.data.reverse s.data.reverse

/-- Python `s[n:]`. -/
def strDropN (s : String) (n : Nat) : String := ⟨s.data.drop n⟩

/-- Python `s[:-n]`. -/
def strDropRightN (s : String) (n : Nat) : String := ⟨s.data.take (s.data.length - n)⟩

/-- Characters treated as separators by `normalize_header`
(the regex class `[-\s\.]`). -/
def isSep (c : Char) : Bool := c = '-' || c = '.' || c.isWhitespace

/-- Collapse each maximal run of separators to a single underscore
(the substitution of `[-\s\.]+` by an underscore). -/
def collapseSeps : Bool → List Char → List Char
  | _, [] => []
  | prevSep, c :: cs =>
    if isSep c then
      if prevSep then collapseSeps true cs
      else '_' :: collapseSeps true cs
    else c :: collapseSeps false cs

/-- Characters kept by the final substitution of `normalize_header`:
word characters (modelled for ASCII), underscore, and the Arabic
block U+0600–U+06FF. -/
def keepChar (c : Char) : Bool :=
  c.isAlphanum || c = '_' || (0x600 ≤ c.toNat && c.toNat ≤ 0x6FF)

/-- Drop one leading `col_` / `column_` / `field_` token (the anchored
alternation tries the branches in this order; they are disjoint). -/
def dropLeadToken (s : String) : String :=
  if strStarts s "col_" then strDropN s 4
  else if strStarts s "column_" then strDropN s 7
  else if strStarts s "field_" then strDropN s 6
  else s

/-- Drop one trailing `_col` / `_column` / `_field` token. -/
def dropTailToken (s : String) : String :=
  if strEnds s "_col" then strDropRightN s 4
  else if strEnds s "_column" then strDropRightN s 7
  else if strEnds s "_field" then strDropRightN s 6
  else s

/-- ColumnMapper.normalize_header: lower-case, trim, strip the
lead/tail tokens, collapse separator runs to `_`, drop the remaining
non-word characters. -/
def normalizeHeader (h : String) : String :=
  let s := strTrim (strLower h)
  let s := dropTailToken (dropLeadToken s)
  String.mk ((collapseSeps false s.data).filter keepChar)

/-- Bool test of `n` occurring inside `h` (Python's `n in h` on
strings); the empty needle matches everywhere. -/
def listInside [DecidableEq α] (n : List α) : List α → Bool
  | [] => listStartsAux n []
  | b :: bs => listStartsAux n (b :: bs) || listInside n bs

/-- Python substring containment `n in h`. -/
def strIn (n h : String) : Bool := listInside n.data h.data

/-- Score contribution of one synonym in
`ColumnMapper.calculate_match_score` when the normalized strings are
not equal: the maximum of the two external similarity ratios, plus
the 0.1 partial-match bonus whenever either normalized string
contains the other (the code imposes no minimum length). -/
def scorePair (R T : String → String → ℚ) (srcN synN : String) : ℚ :=
  let s := max (R srcN synN) (T srcN synN)
  if strIn synN srcN || strIn srcN synN then s + 1/10 else s

/-- Loop of `calculate_match_score`: early return 1.0 on an exact
normalized match, otherwise keep the best synonym score; the result
is clamped to 1.0 at the end. -/
def cmsAux (R T : String → String → ℚ) (srcN : String) :
    List String → ℚ → ℚ
  | [], best => min best 1
  | syn :: rest, best =>
    let synN := normalizeHeader syn
    if srcN = synN then 1
    else cmsAux R T srcN rest (max best (scorePair R T srcN synN))

/-- ColumnMapper.calculate_match_score (fuzzywuzzy available), with
the two external ratios passed as `R` (fuzz.ratio / 100) and `T`
(fuzz.token_sort_ratio / 100). -/
def calculateMatchScore (R T : String → String → ℚ) (src : String)
    (syns : List String) : ℚ :=
  cmsAux R T (normalizeHeader src) syns 0

/-- CANONICAL_FIELDS of src/app/config.py: name, required flag and
expected type tag, in dict insertion order. -/
def canonicalFields : List (String × Bool × String) :=
  [ ("order_id", true, "string"),
    ("order_date", true, "datetime"),
    ("order_status", false, "string"),
    ("currency", false, "string"),
    ("order_total", true, "float"),
    ("customer_id", true, "string"),
    ("customer_name", false, "string"),
    ("customer_email", false, "string"),
    ("customer_phone", false, "string"),
    ("line_item_id", false, "string"),
    ("product_id", false, "string"),
    ("product_name", false, "string"),
    ("sku", false, "string"),
    ("quantity", false, "float"),
    ("item_total", false, "float"),
    ("discounts", false, "float"),
    ("shipping", false, "float"),
    ("taxes", false, "float"),
    ("refund_amount", false, "float"),
    ("fulfillment_status", false, "string"),
    ("payment_status", false, "string") ]

def canonicalFieldNames : List String := canonicalFields.map Prod.fst

/-- Required canonical fields, in iteration order
(order_id, order_date, order_total, customer_id). -/
def requiredFields : List String :=
  (canonicalFields.filter (fun e => e.2.1)).map Prod.fst

/-- Expected type tag of a canonical field
(`CANONICAL_FIELDS.get(field, {}).get('type', 'string')`). -/
def canonicalType (field : String) : String :=
  match canonicalFields.find? (fun e => e.1 = field) with
  | some e => e.2.2
  | none => "string"

/-- Synonym registry entry as loaded from header_synonyms.yaml
(an external data file): the english and arabic synonym lists of one
canonical field. -/
structure SynEntry where
  english : List String
  arabic : List String

/-- Synonyms tried for a canonical field in `auto_detect_columns`:
english then arabic lists, then the canonical name itself; a missing
registry entry (the code's `{"synonyms": {}}` fallback) contributes
only the canonical name. -/
def fieldSynonyms (syn : String → Option SynEntry) (field : String) :
    List String :=
  (match syn field with
   | some e => e.english ++ e.arabic
   | none => []) ++ [field]

/-- Inner loop of `auto_detect_columns`: the best (column, score)
pair for one canonical field — first column wins exact score ties. -/
def bestColumn (R T : String → String → ℚ) (syn : String → Option SynEntry)
    (srcCols : List String) (field : String) : Option String × ℚ :=
  srcCols.foldl
    (fun best col =>
      let s := calculateMatchScore R T col (fieldSynonyms syn field)
      if s > best.2 then (some col, s) else best)
    (none, 0)

/-- Append `p` to the candidate group of source column `src`. -/
def addToGroup (conf : List (String × List (String × ℚ))) (src : String)
    (p : String × ℚ) : List (String × List (String × ℚ)) :=
  conf.map (fun e => if e.1 = src then (e.1, e.2 ++ [p]) else e)

/-- First pass of `ColumnMapper._resolve_mapping_conflicts`: walk the
mapping, record the first claimant of each source column, and open a
candidate group (first claimant included) as soon as a second
claimant of the same source column appears. -/
def buildConf (sc : String → ℚ) :
    List (String × String) → List (String × String) →
    List (String × List (String × ℚ)) →
    List (String × String) × List (String × List (String × ℚ))
  | [], s2c, conf => (s2c, conf)
  | (canon, src) :: rest, s2c, conf =>
    match (s2c.find? (fun e => e.1 = src)).map Prod.snd with
    | some existing =>
      let conf1 := if (conf.find? (fun e => e.1 = src)).isSome then conf
                   else conf ++ [(src, [(existing, sc existing)])]
      buildConf sc rest s2c (addToGroup conf1 src (canon, sc canon))
    | none => buildConf sc rest (s2c ++ [(src, canon)]) conf

/-- Stable insertion into a list sorted by descending score: walk past
strictly higher scores, so equal scores keep their original order
(Python's stable `list.sort(key=..., reverse=True)`). -/
def sortInsDesc (x : String × ℚ) : List (String × ℚ) → List (String × ℚ)
  | [] => [x]
  | y :: ys => if y.2 > x.2 then y :: sortInsDesc x ys else x :: y :: ys

/-- Stable sort by descending score. -/
def sortDesc (l : List (String × ℚ)) : List (String × ℚ) :=
  l.foldr sortInsDesc []

/-- ColumnMapper._resolve_mapping_conflicts: group claimants by source
column, sort each group by descending score (stable), keep the first
entry and delete every other claimant from the mapping. -/
def resolveMappingConflicts (m : List (String × String))
    (sc : String → ℚ) : List (String × String) :=
  (buildConf sc m [] []).2.foldl
    (fun acc e =>
      ((sortDesc e.2).drop 1).foldl
        (fun a p => a.filter (fun q => q.1 ≠ p.1)) acc)
    m

/-- One step of the field loop of `auto_detect_columns`: keep the best
match when it is a truthy column name with score at or above the
threshold; the best score is always recorded for diagnostics. -/
def autoDetectStep (R T : String → String → ℚ)
    (syn : String → Option SynEntry) (srcCols : List String) (τ : ℚ)
    (st : List (String × String) × List (String × ℚ)) (field : String) :
    List (String × String) × List (String × ℚ) :=
  let best := bestColumn R T syn srcCols field
  match best.1 with
  | some c =>
    if c ≠ "" ∧ best.2 ≥ τ then
      (st.1 ++ [(field, c)], st.2 ++ [(field, best.2)])
    else (st.1, st.2 ++ [(field, best.2)])
  | none => (st.1, st.2 ++ [(field, best.2)])

/-- Score lookup `scores[canonical]` used during conflict resolution. -/
def scoreOf (scs : List (String × ℚ)) (c : String) : ℚ :=
  ((scs.find? (fun e => e.1 = c)).map Prod.snd).getD 0

/-- ColumnMapper.auto_detect_columns on the column names of a frame:
per-field best matches thresholded at `τ` (Python falsiness turns a
0 threshold into the 0.8 default), then conflict resolution. -/
def autoDetectColumns (R T : String → String → ℚ)
    (syn : String → Option SynEntry) (τ : ℚ) (srcCols : List String) :
    List (String × String) × List (String × ℚ) :=
  let τ' := if τ = 0 then 4/5 else τ
  let st := canonicalFieldNames.foldl
    (autoDetectStep R T syn srcCols τ') ([], [])
  (resolveMappingConflicts st.1 (scoreOf st.2), st.2)

/-- ColumnMapper._detect_line_item_data. -/
def detectLineItemData (cols : List String)
    (m : List (String × String)) : Bool :=
  let hasOrderItem := cols.contains "order_item_id"
  let hasOrderId := (m.find? (fun e => e.1 = "order_id")).isSome
                    || cols.contains "order_id"
  if hasOrderItem && !hasOrderId then true
  else if (["item_id", "product_id", "sku", "item_size", "item_color",
            "item_price"].any cols.contains) && !hasOrderId then true
  else if (["line_item_id", "quantity", "item_quantity"].any
            cols.contains) && !hasOrderId then true
  else false

/-- Error, warning and cleaning-step messages produced by the
pipeline; each constructor stands for one formatted message site of
the source (the embedded counts and field names are the data the
message interpolates). -/
inductive Msg where
  -- mapper warnings / errors (validate_mappings)
  | wOrderIdGenerated
  | wPhoneAsCustomerId
  | wEmailAsCustomerId
  | eRequiredNotMapped (field : String)
  | wMostlyEmpty (field : String)
  | wPoorQuality (field : String)
  | eMappedColNotFound (src : String)
  -- validator: required fields
  | eFieldNotMapped (field : String)
  | wFieldMissing (field : String)
  | eFieldTooManyMissing (field : String)
  -- validator: type conversions
  | eBadNumeric (field : String)
  | wLowNumericRate (field : String)
  | cConvertedNumeric (field : String)
  | cConvertedNumericLoss (field : String)
  | wNoNonNull (field : String)
  | eBadDatetime (field : String)
  | wLowDatetimeRate (field : String)
  | cConvertedDatetime (field : String)
  | cConvertedDatetimeLoss (field : String)
  | eNoDatetimeFormat (field : String)
  -- validator: quality / duplicates / business rules
  | wSparse (field : String)
  | wDuplicateRecords (n : Nat)
  | wNegativeTotals (n : Nat)
  | wZeroQuantities (n : Nat)
  | wFutureDates (n : Nat)
  | wOldDates (n : Nat)
  | eEmptyIds (n : Nat) (field : String)
  -- validator: currency / date range
  | wMultipleCurrencies
  | wNoCurrencyInfo
  | wNoCurrencyColumn
  | wSameDay
  | wLongSpan
  -- cleaner steps
  | sRemovedDuplicates (n : Nat)
  | sRemovedNegative (n : Nat)
  | sRemovedEmpty (n : Nat) (field : String)
deriving DecidableEq, Repr

/-- Count of non-null cells of a column. -/
def nonNullCount (col : List Cell) : Nat :=
  (col.filter (fun c => c ≠ Cell.null)).length

/-- Null percentage `(null_count / len(series)) * 100` (exact
rational; division by a zero length yields 0 where Python would
raise, a path no claim exercises). -/
def nullPct (col : List Cell) : ℚ :=
  (((col.length - nonNullCount col : Nat) : ℚ) / (col.length : ℚ)) * 100

/-- Distinct non-null values (`series.nunique()`). -/
def nuniqueCol (col : List Cell) : Nat :=
  ((col.filter (fun c => c ≠ Cell.null)).dedup).length

/-- Crude dtype tag of a column: float64 when every non-null cell is
numeric, datetime64 when every non-null cell is a datetime and one
exists, object otherwise (enough structure for the dtype tests the
code performs). -/
def dtypeOf (col : List Cell) : String :=
  let nn := col.filter (fun c => c ≠ Cell.null)
  if nn.all (fun c => match c with | .num _ => true | _ => false) then
    "float64"
  else if nn ≠ [] ∧ nn.all (fun c => match c with | .date _ => true | _ => false) then
    "datetime64"
  else "object"

/-- Statistics record of `ColumnMapper._analyze_field_quality`. -/
structure FieldStats where
  total_rows : Nat
  null_count : Nat
  null_percentage : ℚ
  unique_count : Nat
  data_type : String
  quality_score : ℚ
deriving DecidableEq, Repr

/-- pandas `pd.to_numeric(values, errors='raise')` succeeding: every
value parses (numbers and datetimes do, strings go through the
external parser). -/
def allNumericOk (P : Parsers) (cells : List Cell) : Bool :=
  cells.all (fun c => match c with
    | .str s => (P.parseNum s).isSome
    | _ => true)

/-- pandas `pd.to_datetime(values, errors='raise')` succeeding. -/
def allDatetimeOk (P : Parsers) (cells : List Cell) : Bool :=
  cells.all (fun c => match c with
    | .date _ => true
    | c => (P.toDate none c).isSome)

/-- ColumnMapper._analyze_field_quality: null-rate penalties, an
expected-type parse check on the first 100 non-null values, and a
uniqueness penalty for identifier fields; the score is clamped to
[0, 1]. -/
def analyzeFieldQuality (P : Parsers) (col : List Cell)
    (field : String) : FieldStats :=
  let nNull := col.length - nonNullCount col
  let pct := nullPct col
  let nonNull := col.filter (fun c => c ≠ Cell.null)
  let q : ℚ := 1
  let q := if pct > 50 then q * (1/2) else if pct > 20 then q * (4/5) else q
  let expected := canonicalType field
  let dty := dtypeOf col
  let q :=
    if expected = "float" ∧ dty ≠ "int64" ∧ dty ≠ "float64" then
      if allNumericOk P (nonNull.take 100) then q else q * (7/10)
    else if expected = "datetime" then
      if allDatetimeOk P (nonNull.take 100) then q else q * (7/10)
    else q
  let q :=
    if field = "customer_id" ∨ field = "order_id" ∨ field = "product_id" then
      let denom : Nat := max (col.length - nNull) 1
      if ((nuniqueCol col : ℚ) / (denom : ℚ)) < 4/5 then q * (4/5) else q
    else q
  { total_rows := col.length
    null_count := nNull
    null_percentage := pct
    unique_count := nuniqueCol col
    data_type := dty
    quality_score := max 0 (min 1 q) }

/-- Result record of `ColumnMapper.validate_mappings` (field_stats
keyed by canonical field). -/
structure VMResult where
  is_valid : Bool
  errors : List Msg
  warnings : List Msg
  field_stats : List (String × FieldStats)
  missing_required : List String
  data_quality_score : ℚ
deriving DecidableEq, Repr

/-- State threaded through the required-field loop of
`validate_mappings`: the (possibly mutated) mapping plus the
accumulated missing list, errors and warnings. -/
structure VMLoopState where
  m : List (String × String)
  missing : List String
  errors : List Msg
  warnings : List Msg

/-- One iteration of the required-field loop of `validate_mappings`:
the order_id pass-through for line-item data, the customer_id
fallback that aliases the mapped customer_phone (preferred) or
customer_email column, and the missing-required error. -/
def vmRequiredStep (isLineItem : Bool) (st : VMLoopState)
    (field : String) : VMLoopState :=
  let mapped := (st.m.find? (fun e => e.1 = field)).isSome
  if field = "order_id" ∧ isLineItem ∧ ¬mapped then
    { st with warnings := st.warnings ++ [.wOrderIdGenerated] }
  else if field = "customer_id" ∧ ¬mapped ∧
      (st.m.find? (fun e => e.1 = "customer_phone")).isSome then
    match (st.m.find? (fun e => e.1 = "customer_phone")).map Prod.snd with
    | some src =>
      { st with m := st.m ++ [("customer_id", src)],
                warnings := st.warnings ++ [.wPhoneAsCustomerId] }
    | none => st
  else if field = "customer_id" ∧ ¬mapped ∧
      (st.m.find? (fun e => e.1 = "customer_email")).isSome then
    match (st.m.find? (fun e => e.1 = "customer_email")).map Prod.snd with
    | some src =>
      { st with m := st.m ++ [("customer_id", src)],
                warnings := st.warnings ++ [.wEmailAsCustomerId] }
    | none => st
  else if ¬mapped then
    { st with missing := st.missing ++ [field],
              errors := st.errors ++ [.eRequiredNotMapped field] }
  else st

/-- Analysis loop of `validate_mappings` over the (mutated) mapping:
per-field statistics and warnings for mapped columns present in the
frame, an error for mapped columns absent from it. -/
def vmAnalyzeStep (P : Parsers) (df : DFrame)
    (st : List (String × FieldStats) × List ℚ × List Msg × List Msg)
    (e : String × String) :
    List (String × FieldStats) × List ℚ × List Msg × List Msg :=
  match df.getCol e.2 with
  | some col =>
    let stats := analyzeFieldQuality P col e.1
    let ws :=
      (if stats.null_percentage > 95 then [Msg.wMostlyEmpty e.1] else []) ++
      (if stats.quality_score < 3/10 then [Msg.wPoorQuality e.1] else [])
    (st.1 ++ [(e.1, stats)], st.2.1 ++ [stats.quality_score],
     st.2.2.1, st.2.2.2 ++ ws)
  | none =>
    (st.1, st.2.1, st.2.2.1 ++ [.eMappedColNotFound e.2], st.2.2.2)

/-- ColumnMapper.validate_mappings: required-field checks (with the
customer_id fallback substitution, which mutates the mapping), field
analysis, overall quality score, and the validity flag; returns the
mutated mapping alongside the result record. -/
def validateMappings (P : Parsers) (df : DFrame)
    (m0 : List (String × String)) :
    List (String × String) × VMResult :=
  let isLineItem := detectLineItemData df.colNames m0
  let st := requiredFields.foldl (vmRequiredStep isLineItem)
    ⟨m0, [], [], []⟩
  let an := st.m.foldl (vmAnalyzeStep P df) ([], [], [], [])
  let errors := st.errors ++ an.2.2.1
  let warnings := st.warnings ++ an.2.2.2
  let score := if an.2.1 = [] then 0 else an.2.1.sum / (an.2.1.length : ℚ)
  (st.m,
   { is_valid := st.missing.isEmpty && errors.isEmpty
     errors := errors
     warnings := warnings
     field_stats := an.1
     missing_required := st.missing
     data_quality_score := score })

/-! ## LevelDetector/Aggregator — src/app/ingestion/aggregator.py

The aggregator reads a fixed set of columns from the line-item frame;
a line-item row is modelled as a record of those cells (absent-column
handling is carried by the `DfCols` presence flags, since pandas
column presence is a frame-level fact). Optional descriptive columns
(user_state, user_title, delivery_date, ...) only add pass-through
output fields and are omitted. pandas `groupby` sorts group keys in
its output; the output row order is irrelevant to every property
stated here (sums, lengths), so groups are produced in first-
occurrence order. -/

structure LineRow where
  order_id : Option String
  customer_id : Option String
  order_date : Option Int
  order_item_id : Option ℚ
  item_price : Option ℚ
  price : Option ℚ
  unit_price : Option ℚ
  order_total : Option ℚ
  quantity : Option ℚ
deriving DecidableEq, Repr

/-- Column presence of the line-item frame (`col in df.columns`) for
the columns the aggregator and detector consult. -/
structure DfCols where
  order_id : Bool
  customer_id : Bool
  order_date : Bool
  order_item_id : Bool
  item_price : Bool
  price : Bool
  unit_price : Bool
  order_total : Bool
  quantity : Bool
  product_id : Bool
  product_name : Bool
  item_id : Bool
  sku : Bool
  item_size : Bool
  item_color : Bool
  line_item_id : Bool
deriving DecidableEq, Repr

/-- Price-column choice `for col in ['item_price', 'price',
'unit_price', 'order_total']: if col in df.columns: ... break`. -/
inductive PriceCol where
  | itemPrice | price | unitPrice | orderTotal
deriving DecidableEq, Repr

def choosePriceCol (c : DfCols) : Option PriceCol :=
  if c.item_price then some .itemPrice
  else if c.price then some .price
  else if c.unit_price then some .unitPrice
  else if c.order_total then some .orderTotal
  else none

def priceCell (pc : PriceCol) (r : LineRow) : Option ℚ :=
  match pc with
  | .itemPrice => r.item_price
  | .price => r.price
  | .unitPrice => r.unit_price
  | .orderTotal => r.order_total

/-- Value a pandas group `sum` assigns to one cell of the chosen
price column (NaN counts as 0, `sum` skips missing values). -/
def priceVal (pc : PriceCol) (r : LineRow) : ℚ := (priceCell pc r).getD 0

/-- pandas groupby `first` aggregation: the first non-null value of
the group. -/
def firstNN (l : List (Option α)) : Option α :=
  (l.filterMap id).head?

/-- An aggregated order row. `order_total` is `none` when no price
column exists in the input (only `_aggregate_by_order_id` reaches the
output in that case — the other strategies raise). -/
structure OrderRow where
  order_id : String
  order_date : Option Int
  customer_id : Option String
  order_total : Option ℚ
  quantity : Option ℚ
  item_count : Option Nat
deriving DecidableEq, Repr

/-- Distinct keys in first-occurrence order. -/
def keysOf (keys : List String) : List String := keys.dedup

/-- DataAggregator._aggregate_by_order_id: group by the (non-null)
order_id — pandas groupby silently drops rows whose key is NaN —
summing the chosen price column into order_total and taking the
first values of order_date and customer_id. -/
def aggByOrderId (c : DfCols) (rows : List LineRow) : List OrderRow :=
  let pc := choosePriceCol c
  (keysOf (rows.filterMap (fun r => r.order_id))).map (fun k =>
    let grp := rows.filter (fun r => r.order_id = some k)
    { order_id := k
      order_date := firstNN (grp.map (fun r => r.order_date))
      customer_id := firstNN (grp.map (fun r => r.customer_id))
      order_total := pc.map (fun p => (grp.map (priceVal p)).sum)
      quantity := if c.quantity then
          some ((grp.map (fun r => (r.quantity).getD 0)).sum) else none
      item_count := none })

/-- Synthetic key of `_aggregate_by_customer_date`:
`customer_id.astype(str) + '_' + order_date.dt.strftime('%Y%m%d')`.
A NaN customer_id stringifies to a non-null token, but a NaT date
makes the whole key NaN, so such rows are dropped by the groupby. -/
def custDateKey (r : LineRow) : Option String :=
  r.order_date.map (fun d =>
    (match r.customer_id with | some s => s | none => "nan")
    ++ "_" ++ toString d)

/-- DataAggregator._aggregate_by_customer_date: synthesize the
customer+day key, group on it (rows with a NaN key are dropped),
sum the chosen price column, count group sizes into item_count;
raises (`none`) when no price column exists. -/
def aggByCustomerDate (c : DfCols) (rows : List LineRow) :
    Option (List OrderRow) :=
  match choosePriceCol c with
  | none => none
  | some pc =>
    some ((keysOf (rows.filterMap custDateKey)).map (fun k =>
      let grp := rows.filter (fun r => custDateKey r = some k)
      { order_id := k
        order_date := firstNN (grp.map (fun r => r.order_date))
        customer_id := firstNN (grp.map (fun r => r.customer_id))
        order_total := some ((grp.map (priceVal pc)).sum)
        quantity := if c.quantity then
            some ((grp.map (fun r => (r.quantity).getD 0)).sum) else none
        item_count := some grp.length }))

/-- Ordering of one sort key with pandas `na_position='last'`:
NaN sorts after every value. -/
def cmpOpt [LinearOrder α] : Option α → Option α → Ordering
  | none, none => .eq
  | none, some _ => .gt
  | some _, none => .lt
  | some a, some b => compare a b

/-- Sort key comparison of `_aggregate_by_customer_date_sequential`:
(customer_id, order_date), then order_item_id when that column
exists. -/
def rowCmp (hasSeq : Bool) (a b : LineRow) : Ordering :=
  match cmpOpt a.customer_id b.customer_id with
  | .lt => .lt
  | .gt => .gt
  | .eq =>
    match cmpOpt a.order_date b.order_date with
    | .lt => .lt
    | .gt => .gt
    | .eq => if hasSeq then cmpOpt a.order_item_id b.order_item_id else .eq

/-- Stable insertion: the new row goes after every row that is not
strictly greater, so equal keys keep their original order. -/
def insRow (hasSeq : Bool) (x : LineRow) : List LineRow → List LineRow
  | [] => [x]
  | y :: ys =>
    if rowCmp hasSeq x y = .lt then x :: y :: ys
    else y :: insRow hasSeq x ys

/-- Stable sort by (customer_id, order_date[, order_item_id]) with
NaN keys last. pandas' default sort is not stable, but any two
orders that agree up to permutation of equal keys give the same
boundaries and group contents, which is all the claims consult. -/
def sortRows (hasSeq : Bool) (rows : List LineRow) : List LineRow :=
  rows.foldl (fun acc x => insRow hasSeq x acc) []

/-- pandas `!=` between a cell and the previous row's cell: NaN
compares unequal to everything, including NaN. -/
def pdNe [DecidableEq α] : Option α → Option α → Bool
  | none, _ => true
  | _, none => true
  | some a, some b => a ≠ b

/-- Boundary flags of `_aggregate_by_customer_date_sequential` on the
sorted rows: row i starts a new order when its customer_id or
order_date differs (pandas `!=`, with the row-0 shift producing NaN)
from row i−1. -/
def newOrderFlags : List LineRow → List Bool
  | [] => []
  | r0 :: rest =>
    (pdNe r0.customer_id none || pdNe r0.order_date none) ::
    (rest.zip (r0 :: rest)).map (fun p =>
      pdNe p.1.customer_id p.2.customer_id ||
      pdNe p.1.order_date p.2.order_date)

/-- Cumulative sum of the boundary flags: the synthetic numeric order
id of each row. -/
def cumsumFlags (flags : List Bool) : List Nat :=
  (flags.foldl (fun st b =>
    let n := st.1 + (if b then 1 else 0)
    (n, st.2 ++ [n])) (0, [])).2

/-- Rows of the sorted frame tagged with their synthetic order id
(`'ORD_' + cumsum.astype(str)`). -/
def seqTagged (hasSeq : Bool) (rows : List LineRow) :
    List (Nat × LineRow) :=
  let sorted := sortRows hasSeq rows
  (cumsumFlags (newOrderFlags sorted)).zip sorted

/-- DataAggregator._aggregate_by_customer_date_sequential: sort,
detect boundaries, form synthetic order ids by cumulative count, and
aggregate by them; raises (`none`) when no price column exists. -/
def aggSeq (c : DfCols) (rows : List LineRow) : Option (List OrderRow) :=
  match choosePriceCol c with
  | none => none
  | some pc =>
    let tagged := seqTagged c.order_item_id rows
    some ((keysOf (tagged.map (fun p => "ORD_" ++ toString p.1))).map
      (fun k =>
        let grp := (tagged.filter
          (fun p => "ORD_" ++ toString p.1 = k)).map Prod.snd
        { order_id := k
          order_date := firstNN (grp.map (fun r => r.order_date))
          customer_id := firstNN (grp.map (fun r => r.customer_id))
          order_total := some ((grp.map (priceVal pc)).sum)
          quantity := if c.quantity then
              some ((grp.map (fun r => (r.quantity).getD 0)).sum)
            else none
          item_count := some grp.length }))

/-- DataAggregator._recommend_strategy: the branch conditions read
only these four column-presence facts. -/
def recommendStrategyCore (hasOrderId hasCustomerId hasOrderDate
    hasOrderItemId : Bool) : String :=
  if hasOrderId then "group_by_order_id"
  else if hasCustomerId && hasOrderDate then "group_by_customer_date"
  else if hasOrderItemId && hasCustomerId && hasOrderDate then
    "group_by_customer_date_sequential"
  else "unknown"

def recommendStrategy (c : DfCols) : String :=
  recommendStrategyCore c.order_id c.customer_id c.order_date
    c.order_item_id

/-- Average group size of `df.groupby(['customer_id',
'order_date']).size().mean()`: rows with a null key are dropped by
the groupby. -/
def avgItemsPerOrder (rows : List LineRow) : ℚ :=
  let keyed := rows.filterMap (fun r =>
    r.customer_id.bind (fun c => r.order_date.map (fun d => (c, d))))
  let groups := (keyed.dedup).length
  ((keyed.length : ℚ)) / (groups : ℚ)

/-- Detection result of `DataAggregator.detect_data_level`. -/
structure Detection where
  data_level : String
  confidence : ℚ
  indicator_count : Nat
  requires_aggregation : Bool
  aggregation_strategy : Option String
deriving DecidableEq, Repr

/-- DataAggregator.detect_data_level: four line-item indicators; two
or more classify the frame as line-item with confidence
`min(0.95, count * 0.25)` and attach the recommended strategy. -/
def detectDataLevel (c : DfCols) (rows : List LineRow) : Detection :=
  let ind1 := c.product_id || c.product_name || c.item_id || c.sku ||
    c.item_size || c.item_color
  let ind2 := c.quantity || c.line_item_id || c.order_item_id ||
    c.item_price
  let ind3 := c.customer_id && c.order_date &&
    decide (avgItemsPerOrder rows > 3/2)
  let ind4 := c.order_item_id && !c.order_id
  let n : Nat := (if ind1 then 1 else 0) + (if ind2 then 1 else 0) +
    (if ind3 then 1 else 0) + (if ind4 then 1 else 0)
  if 2 ≤ n then
    { data_level := "line_item"
      confidence := min (95/100) ((n : ℚ) * (1/4))
      indicator_count := n
      requires_aggregation := true
      aggregation_strategy := some (recommendStrategy c) }
  else
    { data_level := "order"
      confidence := 4/5
      indicator_count := n
      requires_aggregation := false
      aggregation_strategy := none }

/-- DataAggregator.aggregate_to_orders: dispatch on the requested
strategy, auto-detecting one when none is passed; an unknown or
absent strategy raises (`none`). -/
def aggregateToOrders (c : DfCols) (rows : List LineRow)
    (strategy : Option String) : Option (List OrderRow) :=
  let strat := match strategy with
    | some s => some s
    | none => (detectDataLevel c rows).aggregation_strategy
  match strat with
  | some "group_by_order_id" => some (aggByOrderId c rows)
  | some "group_by_customer_date" => aggByCustomerDate c rows
  | some "group_by_customer_date_sequential" => aggSeq c rows
  | _ => none

/-! ## Validator/Cleaner — src/app/ingestion/validators.py -/

/-- DataValidator._create_mapped_dataframe: one column per mapping
entry whose source column exists, renamed to the canonical name. -/
def mappedDF (df : DFrame) (m : List (String × String)) : DFrame :=
  ⟨m.filterMap (fun e => (df.getCol e.2).map (fun col => (e.1, col)))⟩

/-- Null percentage with the frame's row count as denominator
(`null_count / len(df) * 100`). -/
def framePct (df : DFrame) (col : List Cell) : ℚ :=
  (((col.length - nonNullCount col : Nat) : ℚ) / (df.nrows : ℚ)) * 100

/-- Validation result record of `DataValidator.validate_dataframe`
(quality metrics, duplicate details, currency and date-range
summaries are carried but only the error/warning lists and the
validity flag matter to the claims). -/
structure VResult where
  is_valid : Bool
  total_rows : Nat
  errors : List Msg
  warnings : List Msg
  cleaning_applied : List Msg
  duplicates_found : Nat
  invalid_rows : Nat
deriving DecidableEq, Repr

/-- One iteration of `_validate_required_fields`: unmapped required
fields are an error; mapped fields present in the frame get a
warning above 20% nulls and an error above 50%. -/
def reqStep (mapped : DFrame) (m : List (String × String))
    (r : VResult) (field : String) : VResult :=
  if (m.find? (fun e => e.1 = field)).isNone then
    { r with errors := r.errors ++ [.eFieldNotMapped field] }
  else
    match mapped.getCol field with
    | some col =>
      let pct := framePct mapped col
      let r := if pct > 20 then
          { r with warnings := r.warnings ++ [.wFieldMissing field] }
        else r
      if pct > 50 then
        { r with errors := r.errors ++ [.eFieldTooManyMissing field] }
      else r
    | none => r

/-- DataValidator._validate_required_fields. -/
def reqPhase (mapped : DFrame) (m : List (String × String))
    (r : VResult) : VResult :=
  requiredFields.foldl (reqStep mapped m) r

/-- Fields of the `type_conversions` dict of
`_validate_data_types`, in insertion order (`true` = numeric,
`false` = datetime). -/
def typeConversions : List (String × Bool) :=
  [ ("order_total", true), ("quantity", true), ("item_total", true),
    ("discounts", true), ("shipping", true), ("taxes", true),
    ("refund_amount", true), ("order_date", false) ]

/-- The `text_only_fields` guard: skip the conversion when any listed
text-field name occurs inside the (lower-cased) field name. -/
def textOnlySkip (field : String) : Bool :=
  [ "country", "city", "state", "province", "region",
    "customer_name", "customer_email", "customer_phone",
    "product_name", "product_sku", "product_category",
    "order_status", "payment_method", "shipping_method"
  ].any (fun tf => strIn tf (strLower field))

/-- The ordered date-format candidate list of the coercion cascade
(auto-detection first, then the six explicit formats). -/
def dateFormats : List (Option DateFmt) :=
  [ none, some .ymd, some .dmySlash, some .mdySlash, some .ymdSlash,
    some .dmyDot, some .dmyDash ]

/-- Measured success rate of one converted candidate:
`temp.notna().sum() / len(original_non_null)`, 0 for an all-null
source column. -/
def dtRate (origNonNull : Nat) (temp : List Cell) : ℚ :=
  if origNonNull > 0 then
    ((temp.countP (fun c => c ≠ Cell.null)) : ℚ) / (origNonNull : ℚ)
  else 0

/-- Selection loop of the datetime cascade: keep the candidate with
the strictly higher measured rate (ties keep the earlier one) and
stop as soon as the current candidate's rate exceeds 95%. -/
def cascadeScan : List (α × ℚ) → Option α → ℚ → Option α × ℚ
  | [], best, bestRate => (best, bestRate)
  | (a, r) :: rest, best, bestRate =>
    let st := if r > bestRate then (some a, r) else (best, bestRate)
    if r > 95/100 then st else cascadeScan rest st.1 st.2

/-- Converted column and measured success rate of each candidate
format for one source column. -/
def dtCandidates (P : Parsers) (col : List Cell) :
    List (List Cell × ℚ) :=
  dateFormats.map (fun f =>
    let temp := col.map (dtCoerce P f)
    (temp, dtRate (nonNullCount col) temp))

/-- Measured success rates of all candidate formats. -/
def dtRates (P : Parsers) (col : List Cell) : List ℚ :=
  (dtCandidates P col).map Prod.snd

/-- Cascade result for one column: the best converted candidate (if
any candidate scored above 0) and its rate. -/
def dtScan (P : Parsers) (col : List Cell) : Option (List Cell) × ℚ :=
  cascadeScan (dtCandidates P col) none 0

/-- Datetime branch of `_validate_data_types` for one column:
(converted column or `none` when left unconverted, errors, warnings,
cleaning notes). Below 50% the field is an error and stays
unconverted; between 50% and 80% it converts with a warning; above
80% it converts silently; no scoring candidate at all is an error. -/
def dtApply (P : Parsers) (field : String) (col : List Cell) :
    Option (List Cell) × List Msg × List Msg × List Msg :=
  match dtScan P col with
  | (some best, rate) =>
    if rate < 1/2 then (none, [.eBadDatetime field], [], [])
    else if rate < 4/5 then
      (some best, [], [.wLowDatetimeRate field],
       [.cConvertedDatetimeLoss field])
    else (some best, [], [], [.cConvertedDatetime field])
  | (none, _) => (none, [.eNoDatetimeFormat field], [], [])

/-- Numeric branch of `_validate_data_types` for one column, with
the same three-tier severity policy on the single `to_numeric`
attempt. -/
def numApply (P : Parsers) (field : String) (col : List Cell) :
    Option (List Cell) × List Msg × List Msg × List Msg :=
  let converted := col.map (numCoerce P)
  let nOrig := nonNullCount col
  if nOrig > 0 then
    let rate : ℚ := (nonNullCount converted : ℚ) / (nOrig : ℚ)
    if rate < 1/2 then (none, [.eBadNumeric field], [], [])
    else if rate < 4/5 then
      (some converted, [], [.wLowNumericRate field],
       [.cConvertedNumericLoss field])
    else (some converted, [], [], [.cConvertedNumeric field])
  else (none, [], [.wNoNonNull field], [])

/-- One iteration of the `_validate_data_types` loop: skip absent
columns and text-designated fields, otherwise run the numeric or
datetime branch and store the converted column back into the frame. -/
def typesStep (P : Parsers) (st : DFrame × VResult)
    (fld : String × Bool) : DFrame × VResult :=
  match st.1.getCol fld.1 with
  | none => st
  | some col =>
    if textOnlySkip fld.1 then st
    else
      let res := if fld.2 then numApply P fld.1 col
                 else dtApply P fld.1 col
      let df2 := match res.1 with
        | some conv => st.1.setCol fld.1 conv
        | none => st.1
      (df2,
       { st.2 with
         errors := st.2.errors ++ res.2.1
         warnings := st.2.warnings ++ res.2.2.1
         cleaning_applied := st.2.cleaning_applied ++ res.2.2.2 })

/-- DataValidator._validate_data_types: the conversion loop over the
eight configured fields, mutating the frame as it goes. -/
def typesPhase (P : Parsers) (st : DFrame × VResult) :
    DFrame × VResult :=
  typeConversions.foldl (typesStep P) st

/-- DataValidator._check_data_quality: per-column metrics; only the
sparse-column warning (>95% null) reaches the report lists. -/
def qualityPhase (df : DFrame) (r : VResult) : VResult :=
  df.cols.foldl
    (fun r e =>
      if nullPct e.2 > 95 then
        { r with warnings := r.warnings ++ [.wSparse e.1] }
      else r)
    r

/-- pandas `Series.duplicated().sum()`: cells equal to an earlier
cell (NaN equal to NaN). -/
def dupCountAux [DecidableEq α] (seen : List α) : List α → Nat
  | [] => 0
  | c :: cs => (if seen.contains c then 1 else 0) + dupCountAux (c :: seen) cs

def dupCount [DecidableEq α] (l : List α) : Nat := dupCountAux [] l

/-- Row tuples of the frame restricted to the given columns. -/
def rowTuples (df : DFrame) (colsUsed : List String) : List (List Cell) :=
  (List.range df.nrows).map (fun i =>
    colsUsed.map (fun c => (((df.getCol c).getD []).getD i Cell.null)))

/-- DataValidator._detect_duplicates: order_id duplicates, plus
line-item duplicates on the composite key when at least two of its
columns exist; one warning carries the total. -/
def dupPhase (df : DFrame) (r : VResult) : VResult :=
  let orderDups := match df.getCol "order_id" with
    | some col => dupCount col
    | none => 0
  let avail := ["order_id", "product_id", "line_item_id"].filter
    (fun c => df.colNames.contains c)
  let lineDups := if 2 ≤ avail.length then dupCount (rowTuples df avail)
    else 0
  let total := orderDups + lineDups
  { r with
    duplicates_found := total
    warnings := r.warnings ++
      (if total > 0 then [.wDuplicateRecords total] else []) }

/-- DataValidator._validate_business_rules: warned rules (negative
totals, non-positive quantities, future and pre-2000 dates) and the
two fatal empty-identifier checks. pandas would raise on an
object-typed comparison (a path always preceded by a conversion
error); such cells simply fail the predicate here. -/
def warnIf (c : Bool) (w : Msg) (r : VResult) : VResult :=
  if c then { r with warnings := r.warnings ++ [w] } else r

def errIf (c : Bool) (e : Msg) (r : VResult) : VResult :=
  if c then { r with errors := r.errors ++ [e] } else r

def bizNegT (df : DFrame) : Nat :=
  match df.getCol "order_total" with
  | some col => col.countP (fun c =>
      match c with | .num q => decide (q < 0) | _ => false)
  | none => 0

def bizZeroQ (df : DFrame) : Nat :=
  match df.getCol "quantity" with
  | some col => col.countP (fun c =>
      match c with | .num q => decide (q ≤ 0) | _ => false)
  | none => 0

def bizFutD (P : Parsers) (df : DFrame) : Nat :=
  match df.getCol "order_date" with
  | some col => col.countP (fun c =>
      match c with | .date d => decide (d > P.now) | _ => false)
  | none => 0

def bizOldD (df : DFrame) : Nat :=
  match df.getCol "order_date" with
  | some col => col.countP (fun c =>
      match c with | .date d => decide (d < epoch2000) | _ => false)
  | none => 0

def bizEmptyOf (df : DFrame) (field : String) : Nat :=
  match df.getCol field with
  | some col => col.countP (fun c => strTrim (cellStr c) = "")
  | none => 0

def bizPhase (P : Parsers) (df : DFrame) (r : VResult) : VResult :=
  let negT := bizNegT df
  let zeroQ := bizZeroQ df
  let futD := bizFutD P df
  let oldD := bizOldD df
  let eC := bizEmptyOf df "customer_id"
  let eO := bizEmptyOf df "order_id"
  let r1 := warnIf (negT > 0) (.wNegativeTotals negT) r
  let r2 := warnIf (zeroQ > 0) (.wZeroQuantities zeroQ) r1
  let r3 := warnIf (futD > 0) (.wFutureDates futD) r2
  let r4 := warnIf (oldD > 0) (.wOldDates oldD) r3
  let r5 := errIf (df.colNames.contains "customer_id" && decide (eC > 0))
    (.eEmptyIds eC "customer_id") r4
  let r6 := errIf (df.colNames.contains "order_id" && decide (eO > 0))
    (.eEmptyIds eO "order_id") r5
  { r6 with invalid_rows := negT + zeroQ + futD + oldD +
      (if df.colNames.contains "customer_id" then eC else 0) +
      (if df.colNames.contains "order_id" then eO else 0) }

/-- DataValidator._analyze_currencies: only its warnings matter
downstream — mixed currencies, a currency column with no non-empty
value, or no currency column at all. -/
def currencyPhase (df : DFrame) (r : VResult) : VResult :=
  match df.getCol "currency" with
  | some col =>
    let found := (col.filter (fun c => c ≠ Cell.null)).dedup
    let valid := found.filter (fun c => c ≠ Cell.str "")
    let r := if 1 < valid.length then
        { r with warnings := r.warnings ++ [.wMultipleCurrencies] } else r
    if valid = [] then
      { r with warnings := r.warnings ++ [.wNoCurrencyInfo] }
    else r
  | none => { r with warnings := r.warnings ++ [.wNoCurrencyColumn] }

/-- DataValidator._analyze_date_ranges: warnings for a single-day or
a longer-than-five-years span (datetime cells only, as after a
successful coercion). -/
def dateRangePhase (df : DFrame) (r : VResult) : VResult :=
  match df.getCol "order_date" with
  | some col =>
    let ds := col.filterMap (fun c =>
      match c with | .date d => some d | _ => none)
    match ds with
    | [] => r
    | d0 :: rest =>
      let mx := rest.foldl max d0
      let mn := rest.foldl min d0
      let span := mx - mn
      if span < 1 then
        { r with warnings := r.warnings ++ [.wSameDay] }
      else if span > 365 * 5 then
        { r with warnings := r.warnings ++ [.wLongSpan] }
      else r
  | none => r

/-- Fresh result record with the given total row count. -/
def emptyVResult (totalRows : Nat) : VResult where
  is_valid := true
  total_rows := totalRows
  errors := []
  warnings := []
  cleaning_applied := []
  duplicates_found := 0
  invalid_rows := 0

/-- The frame after the type-coercion phase, as used by the
duplicate, business-rule, currency and date-range checks. -/
def typedDF (P : Parsers) (mapped : DFrame) : DFrame :=
  (typesPhase P (mapped, emptyVResult 0)).1

/-- DataValidator.validate_dataframe: map the frame to canonical
columns, run every check in order while accumulating errors and
warnings, and set `is_valid` iff the error list stayed empty. -/
def validateDataframe (P : Parsers) (df : DFrame)
    (m : List (String × String)) : VResult :=
  let r0 : VResult := emptyVResult df.nrows
  let mapped := mappedDF df m
  let r1 := reqPhase mapped m r0
  let st2 := typesPhase P (mapped, r1)
  let r3 := qualityPhase st2.1 st2.2
  let r4 := dupPhase st2.1 r3
  let r5 := bizPhase P st2.1 r4
  let r6 := currencyPhase st2.1 r5
  let r7 := dateRangePhase st2.1 r6
  { r7 with is_valid := r7.errors.isEmpty }

/-- The validation gate of the upload pipeline
(src/app/ui/pages/upload.py): after validation the pipeline stops
(before cleaning and analytics) exactly when more than 20 errors
accumulated. -/
def uploadHaltsAfterValidation (r : VResult) : Bool :=
  r.errors.length > 20

/-! ### Cleaning pass — DataValidator.clean_dataframe -/

/-- Keep the rows whose mask bit is true (boolean indexing). -/
def maskFilter (mask : List Bool) (xs : List α) : List α :=
  ((mask.zip xs).filter (fun p => p.1)).map Prod.snd

/-- Apply a row mask to every column of the frame. -/
def DFrame.applyMask (df : DFrame) (mask : List Bool) : DFrame :=
  ⟨df.cols.map (fun e => (e.1, maskFilter mask e.2))⟩

/-- Mask of `drop_duplicates(subset=[col])`: keep each first
occurrence (NaN keys compare equal, as in pandas). -/
def notDupMaskAux (seen : List Cell) : List Cell → List Bool
  | [] => []
  | c :: cs => (!seen.contains c) :: notDupMaskAux (c :: seen) cs

def notDupMask (col : List Cell) : List Bool := notDupMaskAux [] col

/-- Mask of `pd.to_numeric(col, errors='coerce') >= 0`: NaN and
unparseable cells compare false and are dropped. -/
def negMask (P : Parsers) (col : List Cell) : List Bool :=
  col.map (fun c =>
    match numCoerce P c with | .num q => decide (q ≥ 0) | _ => false)

/-- Mask of `col.astype(str).str.strip() != ''`. -/
def emptyMask (col : List Cell) : List Bool :=
  col.map (fun c => strTrim (cellStr c) ≠ "")

/-- Cleaning summary of `clean_dataframe`. -/
structure CleanSummary where
  original_rows : Nat
  removed_rows : Nat
  cleaning_steps : List Msg
  final_rows : Nat
deriving DecidableEq, Repr

/-- Account one removal step in the summary (logged only when it
removed something). -/
def logStep (s : CleanSummary) (removed : Nat) (msg : Nat → Msg) :
    CleanSummary :=
  if removed > 0 then
    { s with removed_rows := s.removed_rows + removed,
             cleaning_steps := s.cleaning_steps ++ [msg removed] }
  else s

/-- Duplicate-order removal by the mapped order_id column. -/
def stepDedup (m : List (String × String))
    (st : DFrame × CleanSummary) : DFrame × CleanSummary :=
  match (m.find? (fun e => e.1 = "order_id")).map Prod.snd with
  | some src =>
    match st.1.getCol src with
    | some col =>
      let df2 := st.1.applyMask (notDupMask col)
      (df2, logStep st.2 (st.1.nrows - df2.nrows) .sRemovedDuplicates)
    | none => st
  | none => st

/-- Removal of rows with a negative (or unparseable) order_total. -/
def stepNegative (P : Parsers) (m : List (String × String))
    (st : DFrame × CleanSummary) : DFrame × CleanSummary :=
  match (m.find? (fun e => e.1 = "order_total")).map Prod.snd with
  | some src =>
    match st.1.getCol src with
    | some col =>
      let df2 := st.1.applyMask (negMask P col)
      (df2, logStep st.2 (st.1.nrows - df2.nrows) .sRemovedNegative)
    | none => st
  | none => st

/-- Removal of rows whose mapped identifier column is empty after
string conversion and trimming. -/
def stepEmpty (m : List (String × String)) (field : String)
    (st : DFrame × CleanSummary) : DFrame × CleanSummary :=
  match (m.find? (fun e => e.1 = field)).map Prod.snd with
  | some src =>
    match st.1.getCol src with
    | some col =>
      let df2 := st.1.applyMask (emptyMask col)
      (df2, logStep st.2 (st.1.nrows - df2.nrows)
        (fun n => .sRemovedEmpty n field))
    | none => st
  | none => st

/-- DataValidator.clean_dataframe: optional duplicate removal by
order_id, then optional removal of invalid rows (negative totals,
empty order_id, empty customer_id), logging each step. The
`already_mapped` variant only changes `col_map` to the identity on
the mapping's keys and is covered by quantifying over the mapping. -/
def cleanDataframe (P : Parsers) (df : DFrame)
    (m : List (String × String)) (removeDup removeInvalid : Bool) :
    DFrame × CleanSummary :=
  let st0 : DFrame × CleanSummary :=
    (df, { original_rows := df.nrows, removed_rows := 0,
           cleaning_steps := [], final_rows := 0 })
  let st1 := if removeDup then stepDedup m st0 else st0
  let st2 := if removeInvalid then
      stepEmpty m "customer_id" (stepEmpty m "order_id"
        (stepNegative P m st1))
    else st1
  (st2.1, { st2.2 with final_rows := st2.1.nrows })

/-! ## Helper lemmas -/

lemma recommendStrategyCore_ne_seq (a b c d : Bool) :
    recommendStrategyCore a b c d ≠ "group_by_customer_date_sequential" := by
  revert a b c d; decide

lemma foldr_max_comm (l : List ℚ) (a b : ℚ) :
    l.foldr max (max a b) = max a (l.foldr max b) := by
  induction l with
  | nil => rfl
  | cons x xs ih =>
    simp only [List.foldr_cons, ih]
    rw [max_left_comm]

/-- The cascade loop without an early stop computes the maximum of
the accumulator and every candidate rate. -/
lemma cascadeScan_rate_no_break (cands : List (α × ℚ))
    (h : ∀ p ∈ cands, p.2 ≤ 95/100) (best : Option α) (bestRate : ℚ) :
    (cascadeScan cands best bestRate).2 =
      (cands.map Prod.snd).foldr max bestRate := by
  induction cands generalizing best bestRate with
  | nil => rfl
  | cons p rest ih =>
    obtain ⟨a, r⟩ := p
    have hr : r ≤ 95/100 := h (a, r) (List.mem_cons_self _ _)
    have hnb : ¬ r > 95/100 := not_lt.mpr hr
    have hrest : ∀ q ∈ rest, q.2 ≤ 95/100 := fun q hq =>
      h q (List.mem_cons_of_mem _ hq)
    simp only [cascadeScan, if_neg hnb]
    rcases lt_or_ge bestRate r with hlt | hge
    · rw [if_pos hlt, ih hrest]
      simp only [List.map_cons, List.foldr_cons]
      rw [← foldr_max_comm]
      congr 1
      exact (max_eq_left hlt.le).symm
    · rw [if_neg (not_lt.mpr hge), ih hrest]
      simp only [List.map_cons, List.foldr_cons]
      rw [← foldr_max_comm]
      congr 1
      exact (max_eq_right hge).symm

/-- Evaluation of the datetime branch when the scan kept no
candidate at all (every rate was 0). -/
lemma dtApply_eq_none (P : Parsers) (field : String) (col : List Cell)
    (r : ℚ) (h : dtScan P col = (none, r)) :
    dtApply P field col = (none, [.eNoDatetimeFormat field], [], []) := by
  unfold dtApply
  rw [h]

/-- Evaluation of the datetime branch when the kept candidate's rate
is below 50%: an error, and the column stays unconverted. -/
lemma dtApply_eq_low (P : Parsers) (field : String) (col : List Cell)
    (best : List Cell) (r : ℚ) (h : dtScan P col = (some best, r))
    (hr : r < 1/2) :
    dtApply P field col = (none, [.eBadDatetime field], [], []) := by
  unfold dtApply
  rw [h]
  dsimp only
  rw [if_pos hr]

lemma foldr_max_lt (l : List ℚ) (b bound : ℚ) (hb : b < bound)
    (h : ∀ x ∈ l, x < bound) : l.foldr max b < bound := by
  induction l with
  | nil => exact hb
  | cons x xs ih =>
    simp only [List.foldr_cons, max_lt_iff]
    exact ⟨h x (List.mem_cons_self _ _),
      ih (fun y hy => h y (List.mem_cons_of_mem _ hy))⟩

/-! ### Conflict-resolution helpers and lemmas -/

/-- Claimant group of one source column: the (canonical field, score)
pairs of every mapping entry claiming that column, in mapping order. -/
def claimPairs (m : List (String × String)) (sc : String → ℚ)
    (src : String) : List (String × ℚ) :=
  (m.filter (fun p => p.2 = src)).map (fun p => (p.1, sc p.1))

/-- First element of maximal score: the claimant a stable descending
sort places first — strictly higher scores win, exact ties go to the
earlier element. -/
def firstArgmax : List (String × ℚ) → Option (String × ℚ)
  | [] => none
  | p :: ps =>
    match firstArgmax ps with
    | none => some p
    | some q => if q.2 > p.2 then some q else some p

/-- No two entries of a mapping share a source column. -/
def sourceInjective (m : List (String × String)) : Prop :=
  ∀ p ∈ m, ∀ q ∈ m, p.2 = q.2 → p.1 = q.1

lemma find?_append_eq (l1 l2 : List α) (p : α → Bool) :
    (l1 ++ l2).find? p =
      match l1.find? p with
      | some x => some x
      | none => l2.find? p := by
  induction l1 with
  | nil => simp
  | cons a l1 ih =>
    cases hpa : p a
    · simp only [List.cons_append, List.find?_cons, hpa, ih]
    · simp only [List.cons_append, List.find?_cons, hpa]

lemma find?_eq_head?_filter (l : List α) (p : α → Bool) :
    l.find? p = (l.filter p).head? := by
  induction l with
  | nil => rfl
  | cons a l ih =>
    rw [List.find?_cons, List.filter_cons]
    cases hpa : p a
    · exact ih
    · rfl

lemma keys_nodup_val_eq {m : List (String × String)}
    (hnd : (m.map Prod.fst).Nodup) {a b1 b2 : String}
    (h1 : (a, b1) ∈ m) (h2 : (a, b2) ∈ m) : b1 = b2 := by
  induction m with
  | nil => cases h1
  | cons e m ih =>
    obtain ⟨c, d⟩ := e
    rw [List.map_cons, List.nodup_cons] at hnd
    rcases List.mem_cons.mp h1 with he1 | h1' <;>
      rcases List.mem_cons.mp h2 with he2 | h2'
    · rw [Prod.mk.injEq] at he1 he2
      rw [he1.2, he2.2]
    · exfalso
      apply hnd.1
      rw [Prod.mk.injEq] at he1
      have hmem : a ∈ m.map Prod.fst := List.mem_map_of_mem Prod.fst h2'
      rwa [he1.1] at hmem
    · exfalso
      apply hnd.1
      rw [Prod.mk.injEq] at he2
      have hmem : a ∈ m.map Prod.fst := List.mem_map_of_mem Prod.fst h1'
      rwa [he2.1] at hmem
    · exact ih hnd.2 h1' h2'

lemma mem_len_le_one {l : List α} (h : l.length ≤ 1) {a b : α}
    (ha : a ∈ l) (hb : b ∈ l) : a = b := by
  cases l with
  | nil => cases ha
  | cons x xs =>
    cases xs with
    | nil => rw [List.mem_singleton.mp ha, List.mem_singleton.mp hb]
    | cons y ys =>
      exfalso
      simp only [List.length_cons] at h
      omega

lemma filter_single_key {l : List (String × String)}
    (hnd : (l.map Prod.fst).Nodup) {a b : String} (hm : (a, b) ∈ l) :
    l.filter (fun p => p.1 = a) = [(a, b)] := by
  induction l with
  | nil => cases hm
  | cons e l ih =>
    rw [List.map_cons, List.nodup_cons] at hnd
    rcases List.mem_cons.mp hm with he | hm'
    · have hnil : l.filter (fun p => p.1 = a) = [] := by
        rw [List.filter_eq_nil_iff]
        intro q hq hq'
        have hq1 : q.1 = a := by simpa using hq'
        have : e.1 = a := congrArg Prod.fst he.symm
        exact (this ▸ hnd.1) (hq1 ▸ List.mem_map_of_mem Prod.fst hq)
      rw [← he]
      simp [List.filter_cons, hnil]
    · have hne : e.1 ≠ a := by
        intro he
        exact hnd.1 (he ▸ List.mem_map_of_mem Prod.fst hm')
      rw [List.filter_cons, if_neg (by simpa using hne)]
      exact ih hnd.2 hm'

/-! sortDesc: permutation and head characterization. -/

lemma sortInsDesc_perm (x : String × ℚ) (l : List (String × ℚ)) :
    (sortInsDesc x l).Perm (x :: l) := by
  induction l with
  | nil => rfl
  | cons y ys ih =>
    rw [sortInsDesc]
    split
    · exact (ih.cons y).trans (List.Perm.swap x y ys)
    · exact List.Perm.refl _

lemma sortDesc_perm (l : List (String × ℚ)) : (sortDesc l).Perm l := by
  induction l with
  | nil => rfl
  | cons x xs ih =>
    exact (sortInsDesc_perm x (sortDesc xs)).trans (ih.cons x)

lemma firstArgmax_isSome {l : List (String × ℚ)} (h : l ≠ []) :
    (firstArgmax l).isSome := by
  cases l with
  | nil => exact absurd rfl h
  | cons p ps =>
    rw [firstArgmax]
    cases firstArgmax ps with
    | none => rfl
    | some w =>
      dsimp only
      split <;> rfl

lemma sortDesc_head (l : List (String × ℚ)) :
    (sortDesc l).head? = firstArgmax l := by
  induction l with
  | nil => rfl
  | cons p ps ih =>
    show (sortInsDesc p (sortDesc ps)).head? = _
    rw [firstArgmax, ← ih]
    cases hs : sortDesc ps with
    | nil => rfl
    | cons y ys =>
      rw [sortInsDesc]
      split
      · rename_i hgt
        simp only [List.head?_cons]
        exact (if_pos hgt).symm
      · rename_i hgt
        simp only [List.head?_cons]
        exact (if_neg hgt).symm

lemma firstArgmax_mem {l : List (String × ℚ)} {q : String × ℚ}
    (h : firstArgmax l = some q) : q ∈ l := by
  induction l generalizing q with
  | nil => cases h
  | cons p ps ih =>
    rw [firstArgmax] at h
    cases hf : firstArgmax ps with
    | none =>
      rw [hf] at h
      cases h
      exact List.mem_cons_self ..
    | some w =>
      rw [hf] at h
      dsimp only at h
      split at h
      · cases h
        exact List.mem_cons_of_mem _ (ih hf)
      · cases h
        exact List.mem_cons_self ..

lemma firstArgmax_max {l : List (String × ℚ)} {q : String × ℚ}
    (h : firstArgmax l = some q) : ∀ x ∈ l, x.2 ≤ q.2 := by
  induction l generalizing q with
  | nil => intro x hx; cases hx
  | cons p ps ih =>
    rw [firstArgmax] at h
    intro x hx
    cases hf : firstArgmax ps with
    | none =>
      have hps : ps = [] := by
        cases ps with
        | nil => rfl
        | cons a l =>
          exfalso
          have hsome := firstArgmax_isSome (l := a :: l) (by simp)
          rw [hf] at hsome
          cases hsome
      rw [hf] at h
      cases h
      subst hps
      rcases List.mem_cons.mp hx with rfl | hx'
      · exact le_refl _
      · cases hx'
    | some w =>
      rw [hf] at h
      dsimp only at h
      split at h
      · rename_i hgt
        cases h
        rcases List.mem_cons.mp hx with rfl | hx'
        · exact hgt.le
        · exact ih hf x hx'
      · rename_i hgt
        cases h
        rcases List.mem_cons.mp hx with rfl | hx'
        · exact le_refl _
        · exact (ih hf x hx').trans (not_lt.mp hgt)

lemma claimPairs_append (m : List (String × String)) (sc : String → ℚ)
    (src : String) (e : String × String) :
    claimPairs (m ++ [e]) sc src =
      claimPairs m sc src ++
        (if e.2 = src then [(e.1, sc e.1)] else []) := by
  unfold claimPairs
  rw [List.filter_append, List.map_append]
  congr 1
  by_cases h : e.2 = src
  · simp [List.filter_cons, h]
  · simp [List.filter_cons, h]

lemma count_append (m : List (String × String)) (src : String)
    (e : String × String) :
    ((m ++ [e]).filter (fun p => p.2 = src)).length =
      (m.filter (fun p => p.2 = src)).length +
        (if e.2 = src then 1 else 0) := by
  rw [List.filter_append, List.length_append]
  congr 1
  by_cases h : e.2 = src
  · simp [List.filter_cons, h]
  · simp [List.filter_cons, h]

lemma addToGroup_mem (conf : List (String × List (String × ℚ)))
    (key : String) (pr : String × ℚ) (src : String)
    (l : List (String × ℚ)) :
    (src, l) ∈ addToGroup conf key pr ↔
      (src ≠ key ∧ (src, l) ∈ conf) ∨
      (src = key ∧ ∃ l0, (src, l0) ∈ conf ∧ l = l0 ++ [pr]) := by
  unfold addToGroup
  rw [List.mem_map]
  constructor
  · rintro ⟨e, he, hfe⟩
    by_cases hek : e.1 = key
    · rw [if_pos (by simpa using hek)] at hfe
      have h1 : e.1 = src := congrArg Prod.fst hfe
      have h2 : e.2 ++ [pr] = l := congrArg Prod.snd hfe
      right
      refine ⟨(h1 ▸ hek : src = key), e.2, ?_, h2.symm⟩
      rw [← h1]
      exact he
    · rw [if_neg (by simpa using hek)] at hfe
      left
      constructor
      · intro hs
        exact hek (congrArg Prod.fst hfe ▸ hs ▸ rfl)
      · exact hfe ▸ he
  · rintro (⟨hne, hm⟩ | ⟨rfl, l0, hm, rfl⟩)
    · exact ⟨(src, l), hm, by rw [if_neg (by simpa using hne)]⟩
    · exact ⟨(src, l0), hm, by rw [if_pos (by simp)]⟩

lemma foldl_filter_ne (cands : List (String × ℚ))
    (acc : List (String × String)) :
    cands.foldl (fun a p => a.filter (fun q => q.1 ≠ p.1)) acc =
      acc.filter (fun q => cands.all (fun p => q.1 ≠ p.1)) := by
  induction cands generalizing acc with
  | nil => simp
  | cons c cands ih =>
    rw [List.foldl_cons, ih, List.filter_filter]
    apply List.filter_congr
    intro q _
    rw [List.all_cons, Bool.and_comm]

lemma resolve_fold_eq_filter
    (conf : List (String × List (String × ℚ)))
    (m : List (String × String)) :
    conf.foldl
      (fun acc e =>
        ((sortDesc e.2).drop 1).foldl
          (fun a p => a.filter (fun q => q.1 ≠ p.1)) acc) m =
      m.filter (fun q => conf.all
        (fun e => ((sortDesc e.2).drop 1).all (fun p => q.1 ≠ p.1))) := by
  induction conf generalizing m with
  | nil => simp
  | cons e conf ih =>
    rw [List.foldl_cons, foldl_filter_ne, ih, List.filter_filter]
    apply List.filter_congr
    intro q _
    rw [List.all_cons, Bool.and_comm]

/-- Invariant-carrying characterization of the first pass of
`_resolve_mapping_conflicts`: after the walk, the group list holds
exactly the sources with at least two claimants, each with its full
in-order claimant list. -/
lemma buildConf_spec (sc : String → ℚ) (rest : List (String × String)) :
    ∀ (done : List (String × String)) (s2c : List (String × String))
      (conf : List (String × List (String × ℚ))),
    (∀ src, (s2c.find? (fun e => e.1 = src)).map Prod.snd =
      (done.find? (fun p => p.2 = src)).map Prod.fst) →
    (∀ src l, (src, l) ∈ conf ↔
      (2 ≤ (done.filter (fun p => p.2 = src)).length ∧
       l = claimPairs done sc src)) →
    ∀ src l, (src, l) ∈ (buildConf sc rest s2c conf).2 ↔
      (2 ≤ ((done ++ rest).filter (fun p => p.2 = src)).length ∧
       l = claimPairs (done ++ rest) sc src) := by
  induction rest with
  | nil =>
    intro done s2c conf _ hB src l
    rw [buildConf, List.append_nil]
    exact hB src l
  | cons e rest ih =>
    intro done s2c conf hA hB src l
    obtain ⟨canon, src₀⟩ := e
    have hsplit : done ++ (canon, src₀) :: rest =
        (done ++ [(canon, src₀)]) ++ rest := by simp
    rw [hsplit]
    rw [buildConf]
    cases hfind : (s2c.find? (fun e => e.1 = src₀)).map Prod.snd with
    | some existing =>
      dsimp only
      have hdone : (done.find? (fun p => p.2 = src₀)).map Prod.fst =
          some existing := by rw [← hA]; exact hfind
      have hcount1 : 1 ≤ (done.filter (fun p => p.2 = src₀)).length := by
        rcases Option.map_eq_some'.mp hdone with ⟨w, hw, _⟩
        rw [find?_eq_head?_filter] at hw
        cases hfil : done.filter (fun p => p.2 = src₀) with
        | nil => rw [hfil] at hw; cases hw
        | cons a t => simp
      refine ih (done ++ [(canon, src₀)]) s2c _ ?_ ?_ src l
      · -- first-claimant map unchanged by appending a later claimant
        intro src'
        rw [hA src', find?_append_eq]
        cases hd : done.find? (fun p => p.2 = src') with
        | some w => rfl
        | none =>
          dsimp only
          by_cases hsrc : src' = src₀
          · exfalso
            rw [hsrc] at hd
            rw [hd] at hdone
            cases hdone
          · rw [List.find?_cons]
            have hdec : decide (((canon, src₀) : String × String).2 = src')
                = false := by
              simp only [decide_eq_false_iff_not]
              exact fun hc => hsrc hc.symm
            rw [hdec]
            rfl
      · -- group list invariant
        intro src' l'
        by_cases hsrc : src' = src₀
        · subst hsrc
          by_cases hkey : ((conf.find? (fun e => e.1 = src')).isSome)
          · rw [if_pos hkey]
            rw [addToGroup_mem]
            constructor
            · rintro (⟨hne, _⟩ | ⟨_, l0, hl0, rfl⟩)
              · exact absurd rfl hne
              · have hl0prop := (hB src' l0).mp hl0
                constructor
                · rw [count_append]
                  simp only [if_pos rfl]
                  omega
                · rw [claimPairs_append, hl0prop.2]
                  simp
            · rintro ⟨hc, rfl⟩
              have hc' : 2 ≤ (done.filter (fun p => p.2 = src')).length := by
                rw [count_append, if_pos rfl] at hc
                -- the new claimant contributed 1; at least 1 more was there
                obtain ⟨g, hg⟩ := Option.isSome_iff_exists.mp hkey
                have hgmem := List.mem_of_find?_eq_some hg
                have hgkey : g.1 = src' := by
                  have := List.find?_some hg
                  simpa using this
                have hgprop := (hB src' g.2).mp (by
                  rw [← hgkey]; exact (by simpa using hgmem))
                exact hgprop.1
              refine Or.inr ⟨rfl, claimPairs done sc src', ?_, ?_⟩
              · exact (hB src' _).mpr ⟨hc', rfl⟩
              · rw [claimPairs_append]
                simp
          · rw [if_neg hkey]
            have hnofind : conf.find? (fun e => e.1 = src') = none :=
              Option.not_isSome_iff_eq_none.mp hkey
            have hno : ∀ l0, (src', l0) ∉ conf := by
              intro l0 hl0
              have := List.find?_eq_none.mp hnofind _ hl0
              simp at this
            have hcount_le :
                (done.filter (fun p => p.2 = src')).length ≤ 1 := by
              by_contra hgt
              push_neg at hgt
              exact hno _ ((hB src' (claimPairs done sc src')).mpr
                ⟨hgt, rfl⟩)
            have hcount : (done.filter (fun p => p.2 = src')).length = 1 :=
              le_antisymm hcount_le hcount1
            obtain ⟨w, hw⟩ := List.length_eq_one.mp hcount
            have hwf : done.find? (fun p => p.2 = src') = some w := by
              rw [find?_eq_head?_filter, hw]
              rfl
            have hwx : w.1 = existing := by
              rw [hwf] at hdone
              simpa using hdone
            have hcp : claimPairs done sc src' =
                [(existing, sc existing)] := by
              unfold claimPairs
              rw [hw, List.map_cons, List.map_nil, hwx]
            rw [addToGroup_mem]
            constructor
            · rintro (⟨hne, _⟩ | ⟨_, l0, hl0, rfl⟩)
              · exact absurd rfl hne
              · rw [List.mem_append] at hl0
                rcases hl0 with hl0 | hl0
                · exact absurd hl0 (hno l0)
                · have hl0' : l0 = [(existing, sc existing)] := by
                    simpa using hl0
                  subst hl0'
                  constructor
                  · rw [count_append, hcount]
                    simp
                  · rw [claimPairs_append, hcp]
                    simp
            · rintro ⟨hc, rfl⟩
              refine Or.inr ⟨rfl, [(existing, sc existing)], ?_, ?_⟩
              · exact List.mem_append.mpr (Or.inr (by simp))
              · rw [claimPairs_append, hcp]
                simp
        · -- a different source column: nothing changes
          have hne2 : ¬(((canon, src₀) : String × String).2 = src') :=
            fun hc => hsrc hc.symm
          have hcount_eq : ((done ++ [(canon, src₀)]).filter
              (fun p => p.2 = src')).length =
              (done.filter (fun p => p.2 = src')).length := by
            rw [count_append, if_neg hne2]
            omega
          have hcp_eq : claimPairs (done ++ [(canon, src₀)]) sc src' =
              claimPairs done sc src' := by
            rw [claimPairs_append, if_neg hne2]
            simp
          rw [hcount_eq, hcp_eq]
          constructor
          · intro hmem
            refine (hB src' l').mp ?_
            by_cases hkey : ((conf.find? (fun e => e.1 = src₀)).isSome)
            · rw [if_pos hkey, addToGroup_mem] at hmem
              rcases hmem with ⟨_, hm⟩ | ⟨hc, _⟩
              · exact hm
              · exact absurd hc hsrc
            · rw [if_neg hkey, addToGroup_mem] at hmem
              rcases hmem with ⟨_, hm⟩ | ⟨hc, _⟩
              · rcases List.mem_append.mp hm with hm | hm
                · exact hm
                · exfalso
                  have : src' = src₀ := by
                    have := List.mem_singleton.mp hm
                    exact congrArg Prod.fst this
                  exact hsrc this
              · exact absurd hc hsrc
          · intro hprop
            have hmem := (hB src' l').mpr hprop
            by_cases hkey : ((conf.find? (fun e => e.1 = src₀)).isSome)
            · rw [if_pos hkey, addToGroup_mem]
              exact Or.inl ⟨hsrc, hmem⟩
            · rw [if_neg hkey, addToGroup_mem]
              exact Or.inl ⟨hsrc, List.mem_append.mpr (Or.inl hmem)⟩
    | none =>
      dsimp only
      have hdone : (done.find? (fun p => p.2 = src₀)).map Prod.fst
          = none := by rw [← hA]; exact hfind
      have hdnone : done.find? (fun p => p.2 = src₀) = none :=
        Option.map_eq_none'.mp hdone
      have hcount0 : (done.filter (fun p => p.2 = src₀)).length = 0 := by
        rw [List.length_eq_zero, List.filter_eq_nil_iff]
        intro p hp hps
        exact (List.find?_eq_none.mp hdnone p hp) hps
      have hs2cnone : s2c.find? (fun e => e.1 = src₀) = none :=
        Option.map_eq_none'.mp hfind
      refine ih (done ++ [(canon, src₀)]) _ conf ?_ ?_ src l
      · intro src'
        rw [find?_append_eq, find?_append_eq]
        by_cases hsrc : src' = src₀
        · rw [hsrc, hs2cnone, hdnone]
          dsimp only
          simp [List.find?_cons]
        · cases hd : done.find? (fun p => p.2 = src') with
          | some w =>
            have hA' := hA src'
            rw [hd] at hA'
            cases hs : s2c.find? (fun e => e.1 = src') with
            | none => rw [hs] at hA'; cases hA'
            | some v =>
              rw [hs] at hA'
              exact hA'
          | none =>
            have hA' := hA src'
            rw [hd] at hA'
            have hs : s2c.find? (fun e => e.1 = src') = none :=
              Option.map_eq_none'.mp hA'
            rw [hs]
            dsimp only
            have h1 : ¬(src₀ = src') := fun hc => hsrc hc.symm
            simp [List.find?_cons, h1]
      · intro src' l'
        by_cases hsrc : src' = src₀
        · subst hsrc
          constructor
          · intro hmem
            have h := (hB src' l').mp hmem
            refine ⟨?_, ?_⟩
            · rw [count_append, if_pos rfl]
              omega
            · -- impossible: at most zero claimants yet the group exists
              exfalso
              rw [hcount0] at h
              omega
          · rintro ⟨hc, _⟩
            rw [count_append, hcount0, if_pos rfl] at hc
            omega
        · have hne2 : ¬(((canon, src₀) : String × String).2 = src') :=
            fun hc => hsrc hc.symm
          have hcount_eq : ((done ++ [(canon, src₀)]).filter
              (fun p => p.2 = src')).length =
              (done.filter (fun p => p.2 = src')).length := by
            rw [count_append, if_neg hne2]
            omega
          have hcp_eq : claimPairs (done ++ [(canon, src₀)]) sc src' =
              claimPairs done sc src' := by
            rw [claimPairs_append, if_neg hne2]
            simp
          rw [hcount_eq, hcp_eq]
          exact hB src' l'

/-- Conflict groups of the full walk: exactly the multi-claimant
sources with their in-order claimant lists. -/
lemma conf_spec (m : List (String × String)) (sc : String → ℚ) :
    ∀ src l, (src, l) ∈ (buildConf sc m [] []).2 ↔
      (2 ≤ (m.filter (fun p => p.2 = src)).length ∧
       l = claimPairs m sc src) := by
  have h := buildConf_spec sc m [] [] []
    (by intro src; rfl)
    (by
      intro src l
      constructor
      · intro h; cases h
      · rintro ⟨h, _⟩; simp at h)
  simpa using h

/-- The resolved mapping is the original one filtered to the
non-losers of every conflict group. -/
lemma resolve_eq_filter_all (m : List (String × String))
    (sc : String → ℚ) :
    resolveMappingConflicts m sc =
      m.filter (fun q => ((buildConf sc m [] []).2).all
        (fun e => ((sortDesc e.2).drop 1).all (fun p => q.1 ≠ p.1))) := by
  unfold resolveMappingConflicts
  exact resolve_fold_eq_filter _ m

/-- Winner characterization: among two or more claimants of one
source column, exactly the first claimant of maximal score survives
conflict resolution. -/
lemma resolve_filter_src (m : List (String × String)) (sc : String → ℚ)
    (hnd : (m.map Prod.fst).Nodup) (src : String)
    (h2 : 2 ≤ (m.filter (fun p => p.2 = src)).length) :
    ∃ w, firstArgmax (claimPairs m sc src) = some w ∧
      (resolveMappingConflicts m sc).filter (fun p => p.2 = src) =
        [(w.1, src)] := by
  have hcpLen : (claimPairs m sc src).length =
      (m.filter (fun p => p.2 = src)).length := by
    unfold claimPairs
    rw [List.length_map]
  have hcpNe : claimPairs m sc src ≠ [] := by
    intro hc
    rw [hc] at hcpLen
    simp at hcpLen
    omega
  obtain ⟨w, hw⟩ := Option.isSome_iff_exists.mp (firstArgmax_isSome hcpNe)
  refine ⟨w, hw, ?_⟩
  have hhead : (sortDesc (claimPairs m sc src)).head? = some w := by
    rw [sortDesc_head]
    exact hw
  obtain ⟨tail, htail⟩ : ∃ tail,
      sortDesc (claimPairs m sc src) = w :: tail := by
    cases hs : sortDesc (claimPairs m sc src) with
    | nil => rw [hs] at hhead; cases hhead
    | cons a t =>
      rw [hs] at hhead
      exact ⟨t, by rw [List.head?_cons] at hhead; cases hhead; rfl⟩
  -- names of the claimants are distinct
  have hnames : (claimPairs m sc src).map Prod.fst =
      (m.filter (fun p => p.2 = src)).map Prod.fst := by
    unfold claimPairs
    rw [List.map_map]
    rfl
  have hndClaim : ((m.filter (fun p => p.2 = src)).map Prod.fst).Nodup :=
    hnd.sublist ((List.filter_sublist m).map Prod.fst)
  have hperm : (w :: tail).Perm (claimPairs m sc src) :=
    htail ▸ sortDesc_perm (claimPairs m sc src)
  have hpermNames : (w.1 :: tail.map Prod.fst).Perm
      ((m.filter (fun p => p.2 = src)).map Prod.fst) := by
    rw [← hnames]
    exact hperm.map Prod.fst
  have hndCons : (w.1 :: tail.map Prod.fst).Nodup :=
    (hpermNames.nodup_iff).mpr hndClaim
  have hwNotTail : w.1 ∉ tail.map Prod.fst := (List.nodup_cons.mp hndCons).1
  -- the src group is among the conflict groups
  have hgrp : (src, claimPairs m sc src) ∈ (buildConf sc m [] []).2 :=
    (conf_spec m sc src _).mpr ⟨h2, rfl⟩
  -- survivor predicate equals "is the winner" on claimants of src
  have hsurv : ∀ q ∈ m.filter (fun p => p.2 = src),
      (((buildConf sc m [] []).2).all
        (fun e => ((sortDesc e.2).drop 1).all (fun p => q.1 ≠ p.1)))
        = (decide (q.1 = w.1)) := by
    intro q hq
    obtain ⟨hqm, hqsrc'⟩ := List.mem_filter.mp hq
    have hqsrc : q.2 = src := by simpa using hqsrc'
    by_cases hqw : q.1 = w.1
    · rw [show decide (q.1 = w.1) = true from by simp [hqw]]
      rw [List.all_eq_true]
      intro e he
      rw [List.all_eq_true]
      intro p hp
      have hespec := (conf_spec m sc e.1 e.2).mp (by simpa using he)
      have hpcp : p ∈ claimPairs m sc e.1 := by
        have hsub : (sortDesc e.2).drop 1 <:+ sortDesc e.2 :=
          List.drop_suffix 1 _
        have hmem1 : p ∈ sortDesc e.2 := hsub.subset hp
        have hmem2 := (sortDesc_perm e.2).subset hmem1
        rw [hespec.2] at hmem2
        exact hmem2
      by_cases hesrc : e.1 = src
      · rw [hesrc] at hespec
        have hdrop : (sortDesc e.2).drop 1 = tail := by
          rw [hespec.2, htail]
          rfl
        rw [hdrop] at hp
        simp only [ne_eq, decide_eq_true_eq]
        intro hc
        apply hwNotTail
        rw [← hqw, hc]
        exact List.mem_map_of_mem Prod.fst hp
      · simp only [ne_eq, decide_eq_true_eq]
        intro hc
        obtain ⟨e', he'mem, he'eq⟩ := List.mem_map.mp (show p ∈
            (m.filter (fun r => r.2 = e.1)).map (fun r => (r.1, sc r.1))
          from by unfold claimPairs at hpcp; exact hpcp)
        have he'filter := List.mem_filter.mp he'mem
        have he'src : e'.2 = e.1 := by simpa using he'filter.2
        have hfst : e'.1 = q.1 := by
          have h1 : e'.1 = p.1 := congrArg Prod.fst he'eq
          rw [h1, ← hc]
        have hq1 : (q.1, q.2) ∈ m := by simpa using hqm
        have hq2 : (q.1, e'.2) ∈ m := by
          rw [← hfst]
          simpa using he'filter.1
        have hvals := keys_nodup_val_eq hnd hq1 hq2
        rw [hqsrc, he'src] at hvals
        exact hesrc hvals.symm
    · rw [show decide (q.1 = w.1) = false from by simpa using hqw]
      rw [Bool.eq_false_iff]
      intro hall
      rw [List.all_eq_true] at hall
      have hone := hall (src, claimPairs m sc src) hgrp
      rw [List.all_eq_true] at hone
      have hqname : q.1 ∈ (m.filter (fun p => p.2 = src)).map Prod.fst :=
        List.mem_map_of_mem Prod.fst hq
      have hmemcons : q.1 ∈ w.1 :: tail.map Prod.fst :=
        (hpermNames.mem_iff).mpr hqname
      rcases List.mem_cons.mp hmemcons with hc | hc
      · exact hqw hc
      · obtain ⟨p, hpmem, hpeq⟩ := List.mem_map.mp hc
        have hdrop : (sortDesc ((src, claimPairs m sc src) :
            String × List (String × ℚ)).2).drop 1 = tail := by
          show (sortDesc (claimPairs m sc src)).drop 1 = tail
          rw [htail]
          rfl
        have hneq := hone p (by rw [hdrop]; exact hpmem)
        simp only [ne_eq, decide_eq_true_eq] at hneq
        exact hneq hpeq.symm
  -- assemble the filtered resolved mapping
  rw [resolve_eq_filter_all]
  rw [List.filter_comm]
  have hcongr : (m.filter (fun p => p.2 = src)).filter
      (fun q => ((buildConf sc m [] []).2).all
        (fun e => ((sortDesc e.2).drop 1).all (fun p => q.1 ≠ p.1))) =
      (m.filter (fun p => p.2 = src)).filter (fun q => q.1 = w.1) := by
    apply List.filter_congr
    intro q hq
    rw [hsurv q hq]
  rw [hcongr]
  -- the winner's entry is the unique claimant with its name
  have hwcp : w ∈ claimPairs m sc src := firstArgmax_mem hw
  obtain ⟨e', he'mem, he'eq⟩ := List.mem_map.mp (show w ∈
      (m.filter (fun r => r.2 = src)).map (fun r => (r.1, sc r.1))
    from by unfold claimPairs at hwcp; exact hwcp)
  have he'fst : e'.1 = w.1 := by
    have h1 := congrArg Prod.fst he'eq
    simpa using h1
  have he'snd : e'.2 = src := by
    have := List.mem_filter.mp he'mem
    simpa using this.2
  have he'pair : e' = (w.1, src) := Prod.ext he'fst he'snd
  exact filter_single_key hndClaim (he'pair ▸ he'mem)

/-- Source-injectivity of the resolved mapping. -/
lemma resolve_sourceInjective (m : List (String × String))
    (sc : String → ℚ) (hnd : (m.map Prod.fst).Nodup) :
    sourceInjective (resolveMappingConflicts m sc) := by
  intro p hp q hq hpq
  have hsub : ∀ x ∈ resolveMappingConflicts m sc, x ∈ m := by
    intro x hx
    rw [resolve_eq_filter_all] at hx
    exact (List.mem_filter.mp hx).1
  by_cases h2 : 2 ≤ (m.filter (fun r => r.2 = p.2)).length
  · obtain ⟨w, _, hfil⟩ := resolve_filter_src m sc hnd p.2 h2
    have hpfil : p ∈ (resolveMappingConflicts m sc).filter
        (fun r => r.2 = p.2) := by
      rw [List.mem_filter]
      exact ⟨hp, by simp⟩
    have hqfil : q ∈ (resolveMappingConflicts m sc).filter
        (fun r => r.2 = p.2) := by
      rw [List.mem_filter]
      exact ⟨hq, by simp [hpq]⟩
    rw [hfil] at hpfil hqfil
    have hp' := List.mem_singleton.mp hpfil
    have hq' := List.mem_singleton.mp hqfil
    rw [hp', hq']
  · push_neg at h2
    have hple : (m.filter (fun r => r.2 = p.2)).length ≤ 1 := by omega
    have hpm : p ∈ m.filter (fun r => r.2 = p.2) := by
      rw [List.mem_filter]
      exact ⟨hsub p hp, by simp⟩
    have hqm : q ∈ m.filter (fun r => r.2 = p.2) := by
      rw [List.mem_filter]
      exact ⟨hsub q hq, by simp [hpq]⟩
    rw [mem_len_le_one hple hpm hqm]

/-! ## Claim theorems -/

/-! ### Group-by partition lemmas for the aggregator -/

lemma sum_map_filter_split {M : Type} [AddCommMonoid M] (f : α → M)
    (p : α → Bool) (xs : List α) :
    ((xs.filter p).map f).sum +
      ((xs.filter (fun x => !(p x))).map f).sum = (xs.map f).sum := by
  induction xs with
  | nil => simp
  | cons x xs ih =>
    rw [List.filter_cons, List.filter_cons]
    cases hx : p x
    · rw [if_neg (by simp [hx]), if_pos (by simp [hx])]
      simp only [List.map_cons, List.sum_cons]
      rw [← ih]
      abel
    · rw [if_pos (by simp [hx]), if_neg (by simp [hx])]
      simp only [List.map_cons, List.sum_cons]
      rw [← ih]
      abel

/-- Summing group aggregates over the distinct keys recovers the sum
over all rows: the groups of a groupby partition the rows. -/
lemma sum_over_keys {κ M : Type} [DecidableEq κ] [AddCommMonoid M]
    (key : α → κ) (f : α → M) :
    ∀ (ks : List κ) (xs : List α), ks.Nodup →
    (∀ x ∈ xs, key x ∈ ks) →
    (ks.map (fun k => ((xs.filter (fun x => key x = k)).map f).sum)).sum =
      (xs.map f).sum := by
  intro ks
  induction ks with
  | nil =>
    intro xs _ hcov
    cases xs with
    | nil => rfl
    | cons x xs => exact absurd (hcov x (List.mem_cons_self ..)) (by simp)
  | cons k ks ih =>
    intro xs hnd hcov
    rw [List.map_cons, List.sum_cons]
    have hks : ks.Nodup := (List.nodup_cons.mp hnd).2
    have hknot : k ∉ ks := (List.nodup_cons.mp hnd).1
    have hflt : ∀ k' ∈ ks,
        xs.filter (fun x => key x = k') =
        (xs.filter (fun x => !(decide (key x = k)))).filter
          (fun x => key x = k') := by
      intro k' hk'
      rw [List.filter_filter]
      apply List.filter_congr
      intro x _
      by_cases hx : key x = k'
      · have hnk : ¬(key x = k) :=
          fun hc => hknot (((hc.symm.trans hx).symm) ▸ hk')
        have hkk : ¬(k' = k) := fun hc => hknot (hc ▸ hk')
        simp [hx, hnk, hkk]
      · simp [hx]
    have hrw : (ks.map (fun k' =>
        ((xs.filter (fun x => key x = k')).map f).sum)) =
        (ks.map (fun k' =>
        (((xs.filter (fun x => !(decide (key x = k)))).filter
          (fun x => key x = k')).map f).sum)) := by
      apply List.map_congr_left
      intro k' hk'
      rw [hflt k' hk']
    rw [hrw, ih (xs.filter (fun x => !(decide (key x = k)))) hks (by
      intro x hx
      obtain ⟨hxm, hxk⟩ := List.mem_filter.mp hx
      have hmem := hcov x hxm
      rcases List.mem_cons.mp hmem with hc | hc
      · exfalso
        revert hxk
        simp [hc]
      · exact hc)]
    exact sum_map_filter_split f (fun x => decide (key x = k)) xs

lemma sum_map_ones (l : List α) :
    (l.map (fun _ => (1 : ℕ))).sum = l.length := by
  induction l with
  | nil => rfl
  | cons x xs ih =>
    simp only [List.map_cons, List.sum_cons, ih, List.length_cons]
    omega

lemma insRow_perm (hs : Bool) (x : LineRow) (l : List LineRow) :
    (insRow hs x l).Perm (x :: l) := by
  induction l with
  | nil => rfl
  | cons y ys ih =>
    rw [insRow]
    split
    · exact List.Perm.refl _
    · exact (ih.cons y).trans (List.Perm.swap x y ys)

lemma sortRows_go_perm (hs : Bool) :
    ∀ (rows acc : List LineRow),
    (rows.foldl (fun a x => insRow hs x a) acc).Perm (acc ++ rows) := by
  intro rows
  induction rows with
  | nil => intro acc; simp
  | cons r rows ih =>
    intro acc
    rw [List.foldl_cons]
    refine (ih (insRow hs r acc)).trans ?_
    have h1 : (insRow hs r acc ++ rows).Perm ((r :: acc) ++ rows) :=
      (insRow_perm hs r acc).append_right rows
    refine h1.trans ?_
    show (r :: (acc ++ rows)).Perm (acc ++ r :: rows)
    exact List.perm_middle.symm

lemma sortRows_perm (hs : Bool) (rows : List LineRow) :
    (sortRows hs rows).Perm rows := by
  have := sortRows_go_perm hs rows []
  simpa [sortRows] using this

/-- Direct recursion computing the running boundary count. -/
def cumsumAux (n : Nat) : List Bool → List Nat
  | [] => []
  | b :: bs =>
    (n + (if b then 1 else 0)) :: cumsumAux (n + (if b then 1 else 0)) bs

lemma cumsumFlags_go (flags : List Bool) :
    ∀ (n : Nat) (acc : List Nat),
    (flags.foldl (fun st b =>
      let m := st.1 + (if b then 1 else 0)
      (m, st.2 ++ [m])) ((n : Nat), acc)).2 = acc ++ cumsumAux n flags := by
  induction flags with
  | nil => intro n acc; simp [cumsumAux]
  | cons b bs ih =>
    intro n acc
    rw [List.foldl_cons]
    dsimp only
    rw [ih]
    rw [cumsumAux]
    simp

lemma cumsumFlags_eq (flags : List Bool) :
    cumsumFlags flags = cumsumAux 0 flags := by
  unfold cumsumFlags
  rw [cumsumFlags_go flags 0 []]
  simp

lemma cumsumAux_length (flags : List Bool) :
    ∀ n, (cumsumAux n flags).length = flags.length := by
  induction flags with
  | nil => intro n; rfl
  | cons b bs ih =>
    intro n
    rw [cumsumAux]
    simp [ih]

lemma cumsumFlags_length (flags : List Bool) :
    (cumsumFlags flags).length = flags.length := by
  rw [cumsumFlags_eq]
  exact cumsumAux_length flags 0

lemma newOrderFlags_length (l : List LineRow) :
    (newOrderFlags l).length = l.length := by
  cases l with
  | nil => rfl
  | cons r rest =>
    rw [newOrderFlags]
    simp only [List.length_cons, List.length_map, List.length_zip,
      List.length_cons]
    omega

lemma seqTagged_snd (c : Bool) (rows : List LineRow) :
    (seqTagged c rows).map Prod.snd = sortRows c rows := by
  unfold seqTagged
  apply List.map_snd_zip
  rw [cumsumFlags_length, newOrderFlags_length]

lemma aggByOrderId_sums (c : DfCols) (rows : List LineRow) (pc : PriceCol)
    (hpc : choosePriceCol c = some pc)
    (hnn : ∀ r ∈ rows, r.order_id ≠ none) :
    ((aggByOrderId c rows).map (fun o => o.order_total.getD 0)).sum =
      (rows.map (priceVal pc)).sum ∧
    ((aggByOrderId c rows).map (fun o =>
      (rows.filter (fun r => r.order_id = some o.order_id)).length)).sum =
      rows.length := by
  have hcov : ∀ r ∈ rows, r.order_id ∈
      ((rows.filterMap (fun r => r.order_id)).dedup).map some := by
    intro r hr
    cases ho : r.order_id with
    | none => exact absurd ho (hnn r hr)
    | some v =>
      apply List.mem_map_of_mem some
      rw [List.mem_dedup]
      exact List.mem_filterMap.mpr ⟨r, hr, ho⟩
  have hndk :
      ((((rows.filterMap (fun r => r.order_id)).dedup)).map some).Nodup :=
    (List.nodup_dedup _).map (Option.some_injective String)
  constructor
  · unfold aggByOrderId
    rw [hpc]
    rw [List.map_map]
    have h := sum_over_keys (fun r : LineRow => r.order_id) (priceVal pc)
      (((rows.filterMap (fun r => r.order_id)).dedup).map some) rows
      hndk hcov
    rw [List.map_map] at h
    exact h
  · unfold aggByOrderId
    rw [hpc]
    rw [List.map_map]
    have h := sum_over_keys (fun r : LineRow => r.order_id)
      (fun _ => (1 : ℕ))
      (((rows.filterMap (fun r => r.order_id)).dedup).map some) rows
      hndk hcov
    rw [List.map_map, sum_map_ones] at h
    have hconv :
        (((rows.filterMap (fun r => r.order_id)).dedup).map
          ((fun k' => ((rows.filter (fun x => x.order_id = k')).map
            (fun _ => (1 : ℕ))).sum) ∘ some)) =
        (((rows.filterMap (fun r => r.order_id)).dedup).map
          (fun k => (rows.filter
            (fun x => x.order_id = some k)).length)) := by
      apply List.map_congr_left
      intro k _
      exact sum_map_ones _
    rw [hconv] at h
    exact h

lemma aggByCustomerDate_sums (c : DfCols) (rows : List LineRow)
    (pc : PriceCol) (hpc : choosePriceCol c = some pc)
    (hnn : ∀ r ∈ rows, r.order_date ≠ none) :
    ∃ out, aggByCustomerDate c rows = some out ∧
      (out.map (fun o => o.order_total.getD 0)).sum =
        (rows.map (priceVal pc)).sum ∧
      (out.map (fun o => o.item_count.getD 0)).sum = rows.length := by
  have hcov : ∀ r ∈ rows, custDateKey r ∈
      ((rows.filterMap custDateKey).dedup).map some := by
    intro r hr
    cases ho : custDateKey r with
    | none =>
      exfalso
      cases hd : r.order_date with
      | none => exact (hnn r hr) hd
      | some d =>
        rw [custDateKey, hd] at ho
        cases ho
    | some v =>
      apply List.mem_map_of_mem some
      rw [List.mem_dedup]
      exact List.mem_filterMap.mpr ⟨r, hr, ho⟩
  have hndk : (((rows.filterMap custDateKey).dedup).map some).Nodup :=
    (List.nodup_dedup _).map (Option.some_injective String)
  unfold aggByCustomerDate
  rw [hpc]
  refine ⟨_, rfl, ?_, ?_⟩
  · rw [List.map_map]
    have h := sum_over_keys custDateKey (priceVal pc)
      (((rows.filterMap custDateKey).dedup).map some) rows hndk hcov
    rw [List.map_map] at h
    exact h
  · rw [List.map_map]
    have h := sum_over_keys custDateKey (fun _ => (1 : ℕ))
      (((rows.filterMap custDateKey).dedup).map some) rows hndk hcov
    rw [List.map_map, sum_map_ones] at h
    have hconv : (((rows.filterMap custDateKey).dedup).map
        ((fun k' => ((rows.filter (fun x => custDateKey x = k')).map
          (fun _ => (1 : ℕ))).sum) ∘ some)) =
        (((rows.filterMap custDateKey).dedup).map
          (fun k => (rows.filter
            (fun x => custDateKey x = some k)).length)) := by
      apply List.map_congr_left
      intro k _
      exact sum_map_ones _
    rw [hconv] at h
    exact h

lemma seqTagged_length (c : Bool) (rows : List LineRow) :
    (seqTagged c rows).length = rows.length := by
  have h := congrArg List.length (seqTagged_snd c rows)
  rw [List.length_map] at h
  rw [h]
  exact (sortRows_perm c rows).length_eq

lemma aggSeq_sums (c : DfCols) (rows : List LineRow) (pc : PriceCol)
    (hpc : choosePriceCol c = some pc) :
    ∃ out, aggSeq c rows = some out ∧
      (out.map (fun o => o.order_total.getD 0)).sum =
        (rows.map (priceVal pc)).sum ∧
      (out.map (fun o => o.item_count.getD 0)).sum = rows.length := by
  have hcov : ∀ p ∈ seqTagged c.order_item_id rows,
      ("ORD_" ++ toString p.1) ∈
        ((seqTagged c.order_item_id rows).map
          (fun p => "ORD_" ++ toString p.1)).dedup := by
    intro p hp
    rw [List.mem_dedup]
    exact List.mem_map_of_mem _ hp
  have hndk : (((seqTagged c.order_item_id rows).map
      (fun p => "ORD_" ++ toString p.1)).dedup).Nodup :=
    List.nodup_dedup _
  have hmapf : ∀ (f : LineRow → ℚ),
      ((seqTagged c.order_item_id rows).map (fun p => f p.2)).sum =
        (rows.map f).sum := by
    intro f
    have h1 : (seqTagged c.order_item_id rows).map (fun p => f p.2) =
        ((seqTagged c.order_item_id rows).map Prod.snd).map f :=
      (List.map_map f Prod.snd (seqTagged c.order_item_id rows)).symm
    rw [h1, seqTagged_snd]
    exact ((sortRows_perm c.order_item_id rows).map f).sum_eq
  unfold aggSeq
  rw [hpc]
  refine ⟨_, rfl, ?_, ?_⟩
  · rw [List.map_map]
    have h := sum_over_keys
      (fun p : Nat × LineRow => "ORD_" ++ toString p.1)
      (fun p => priceVal pc p.2)
      (((seqTagged c.order_item_id rows).map
        (fun p => "ORD_" ++ toString p.1)).dedup)
      (seqTagged c.order_item_id rows) hndk hcov
    rw [hmapf (priceVal pc)] at h
    have hconv : (((seqTagged c.order_item_id rows).map
        (fun p => "ORD_" ++ toString p.1)).dedup).map
          (fun k => (((seqTagged c.order_item_id rows).filter
            (fun p => "ORD_" ++ toString p.1 = k)).map
              (fun p => priceVal pc p.2)).sum) =
        (((seqTagged c.order_item_id rows).map
          (fun p => "ORD_" ++ toString p.1)).dedup).map
          (fun k => ((((seqTagged c.order_item_id rows).filter
            (fun p => "ORD_" ++ toString p.1 = k)).map Prod.snd).map
              (priceVal pc)).sum) := by
      apply List.map_congr_left
      intro k _
      rw [List.map_map]
      rfl
    rw [hconv] at h
    exact h
  · rw [List.map_map]
    have h := sum_over_keys
      (fun p : Nat × LineRow => "ORD_" ++ toString p.1)
      (fun _ => (1 : ℕ))
      (((seqTagged c.order_item_id rows).map
        (fun p => "ORD_" ++ toString p.1)).dedup)
      (seqTagged c.order_item_id rows) hndk hcov
    rw [sum_map_ones, seqTagged_length] at h
    have hconv : (((seqTagged c.order_item_id rows).map
        (fun p => "ORD_" ++ toString p.1)).dedup).map
          (fun k => (((seqTagged c.order_item_id rows).filter
            (fun p => "ORD_" ++ toString p.1 = k)).map
              (fun _ => (1 : ℕ))).sum) =
        (((seqTagged c.order_item_id rows).map
          (fun p => "ORD_" ++ toString p.1)).dedup).map
          (fun k => (((seqTagged c.order_item_id rows).filter
            (fun p => "ORD_" ++ toString p.1 = k)).map Prod.snd).length) := by
      apply List.map_congr_left
      intro k _
      rw [sum_map_ones, List.length_map]
    rw [hconv] at h
    exact h

/-- C6. Whenever two or more canonical fields' best match is the same
source column, conflict resolution keeps exactly the claimant that a
stable descending sort puts first — the one with strictly highest
score, exact ties broken in favour of the field encountered first in
canonical iteration order (`firstArgmax`) — and the resolved mapping
assigns each source column to at most one field. -/
theorem claim_C6 (m : List (String × String)) (sc : String → ℚ)
    (hnd : (m.map Prod.fst).Nodup) :
    (∀ p ∈ resolveMappingConflicts m sc,
      ∀ q ∈ resolveMappingConflicts m sc, p.2 = q.2 → p.1 = q.1) ∧
    (∀ src, 2 ≤ (m.filter (fun p => p.2 = src)).length →
      ∃ w, firstArgmax (claimPairs m sc src) = some w ∧
        w ∈ claimPairs m sc src ∧
        (∀ x ∈ claimPairs m sc src, x.2 ≤ w.2) ∧
        (resolveMappingConflicts m sc).filter (fun p => p.2 = src) =
          [(w.1, src)]) := by
  refine ⟨resolve_sourceInjective m sc hnd, fun src h2 => ?_⟩
  obtain ⟨w, hw, hfil⟩ := resolve_filter_src m sc hnd src h2
  exact ⟨w, hw, firstArgmax_mem hw, firstArgmax_max hw, hfil⟩

/-- Concrete two-claimant mapping for the C6 witness. -/
def mW : List (String × String) := [("a", "s"), ("b", "s")]

def scW : String → ℚ := fun c => if c = "b" then 1 else 0

/-- C6 witness: with claimants a (score 0) and b (score 1) of the
same source column s, resolution keeps exactly b. -/
theorem claim_C6_witness :
    ∃ w, firstArgmax (claimPairs mW scW "s") = some w ∧
      w ∈ claimPairs mW scW "s" ∧
      (∀ x ∈ claimPairs mW scW "s", x.2 ≤ w.2) ∧
      (resolveMappingConflicts mW scW).filter (fun p => p.2 = "s") =
        [(w.1, "s")] :=
  (claim_C6 mW scW (by decide)).2 "s" (by decide)

/-- Keys accumulated by the auto-detection fold extend the initial
keys by a sub-sequence of the processed field names. -/
lemma autoDetect_keys_sublist (R T : String → String → ℚ)
    (syn : String → Option SynEntry) (srcCols : List String) (τ : ℚ) :
    ∀ (fields : List String)
      (st : List (String × String) × List (String × ℚ)),
    ∃ ext, (fields.foldl (autoDetectStep R T syn srcCols τ) st).1 =
        st.1 ++ ext ∧ List.Sublist (ext.map Prod.fst) fields := by
  intro fields
  induction fields with
  | nil => exact fun st => ⟨[], by simp⟩
  | cons f fields ih =>
    intro st
    rw [List.foldl_cons]
    obtain ⟨ext, hext, hsub⟩ := ih (autoDetectStep R T syn srcCols τ st f)
    rw [hext]
    have hstep : ∃ ext0,
        (autoDetectStep R T syn srcCols τ st f).1 = st.1 ++ ext0 ∧
        List.Sublist (ext0.map Prod.fst) [f] := by
      unfold autoDetectStep
      generalize bestColumn R T syn srcCols f = bc
      obtain ⟨b, s⟩ := bc
      cases b with
      | none => exact ⟨[], by simp, by simp⟩
      | some c =>
        dsimp only
        by_cases hc : c ≠ "" ∧ s ≥ τ
        · rw [if_pos hc]
          exact ⟨[(f, c)], by simp, by simp⟩
        · rw [if_neg hc]
          exact ⟨[], by simp, by simp⟩
    obtain ⟨ext0, hext0, hsub0⟩ := hstep
    rw [hext0, List.append_assoc]
    refine ⟨ext0 ++ ext, rfl, ?_⟩
    rw [List.map_append]
    exact List.Sublist.append hsub0 hsub

/-- The pre-resolution mapping of auto-detection has distinct
canonical-field keys. -/
lemma autoDetect_pre_nodup (R T : String → String → ℚ)
    (syn : String → Option SynEntry) (srcCols : List String) (τ : ℚ) :
    (((canonicalFieldNames.foldl
        (autoDetectStep R T syn srcCols τ) ([], [])).1).map
          Prod.fst).Nodup := by
  obtain ⟨ext, hext, hsub⟩ :=
    autoDetect_keys_sublist R T syn srcCols τ canonicalFieldNames ([], [])
  rw [hext]
  simp only [List.nil_append]
  exact hsub.nodup (by decide)

/-- The required-field loop of `validate_mappings` leaves the mapping
unchanged on fields other than customer_id. -/
lemma vmRequiredStep_m_of_ne (isLI : Bool) (st : VMLoopState)
    (field : String) (h : field ≠ "customer_id") :
    (vmRequiredStep isLI st field).m = st.m := by
  unfold vmRequiredStep
  dsimp only
  split_ifs with h1 h2 h3 h4
  · rfl
  · exact absurd h2.1 h
  · exact absurd h3.1 h
  · rfl
  · rfl

/-- After the required-field loop, the mapping is either unchanged or
extended by exactly one customer_id alias of the already-mapped
customer_phone or customer_email column. -/
lemma vm_m_cases (P : Parsers) (df : DFrame)
    (m0 : List (String × String)) :
    (validateMappings P df m0).1 = m0 ∨
    ∃ src, (validateMappings P df m0).1 = m0 ++ [("customer_id", src)] ∧
      (("customer_phone", src) ∈ m0 ∨ ("customer_email", src) ∈ m0) := by
  have hreq : requiredFields =
      ["order_id", "order_date", "order_total", "customer_id"] := by decide
  unfold validateMappings
  rw [hreq]
  dsimp only
  simp only [List.foldl_cons, List.foldl_nil]
  set isLI := detectLineItemData df.colNames m0 with hisLI
  set st3 := vmRequiredStep isLI (vmRequiredStep isLI (vmRequiredStep isLI
    ⟨m0, [], [], []⟩ "order_id") "order_date") "order_total" with hst3
  have hm3 : st3.m = m0 := by
    rw [hst3]
    rw [vmRequiredStep_m_of_ne _ _ _ (by decide),
        vmRequiredStep_m_of_ne _ _ _ (by decide),
        vmRequiredStep_m_of_ne _ _ _ (by decide)]
  unfold vmRequiredStep
  dsimp only
  split_ifs with h1 h2 h3 h4
  · exact absurd h1.1 (by decide)
  · -- phone fallback
    cases hf : (st3.m.find? (fun e => e.1 = "customer_phone")).map
        Prod.snd with
    | none =>
      exfalso
      rw [Option.map_eq_none'] at hf
      rw [hf] at h2
      simp at h2
    | some src =>
      right
      refine ⟨src, by dsimp only; rw [hm3], ?_⟩
      left
      obtain ⟨e, he, hesnd⟩ := Option.map_eq_some'.mp hf
      have hmem := List.mem_of_find?_eq_some he
      have hkey : e.1 = "customer_phone" := by
        have := List.find?_some he
        simpa using this
      rw [hm3] at hmem
      have : e = ("customer_phone", src) := Prod.ext hkey hesnd
      exact this ▸ hmem
  · -- email fallback
    cases hf : (st3.m.find? (fun e => e.1 = "customer_email")).map
        Prod.snd with
    | none =>
      exfalso
      rw [Option.map_eq_none'] at hf
      rw [hf] at h3
      simp at h3
    | some src =>
      right
      refine ⟨src, by dsimp only; rw [hm3], ?_⟩
      right
      obtain ⟨e, he, hesnd⟩ := Option.map_eq_some'.mp hf
      have hmem := List.mem_of_find?_eq_some he
      have hkey : e.1 = "customer_email" := by
        have := List.find?_some he
        simpa using this
      rw [hm3] at hmem
      have : e = ("customer_email", src) := Prod.ext hkey hesnd
      exact this ▸ hmem
  · exact Or.inl hm3
  · exact Or.inl hm3

/-- C3 counterexample inputs: a frame whose headers exactly match
order_id, order_date, order_total and customer_phone, no synonym
registry (the code's fallback when the YAML is missing), and zero
external similarity ratios. -/
def zeroRatio : String → String → ℚ := fun _ _ => 0

def noSyn : String → Option SynEntry := fun _ => none

def c3DF : DFrame :=
  ⟨[("order_id", [Cell.str "A1"]),
    ("order_date", [Cell.date 11000]),
    ("order_total", [Cell.num 10]),
    ("customer_phone", [Cell.str "0501"])]⟩

def c3Parsers : Parsers where
  parseNum := fun _ => none
  toDate := fun _ _ => none
  now := 20000

/-- C3 counterexample. Auto-detection maps the four exactly-matching
headers; mapping validation then aliases the customer_phone column as
customer_id while customer_phone stays mapped, so two canonical
fields share the source column "customer_phone" in the final
mapping — the claimed invariant fails after the fallback. -/
theorem claim_C3_counterexample :
    ("customer_id", "customer_phone") ∈
      (validateMappings c3Parsers c3DF
        (autoDetectColumns zeroRatio zeroRatio noSyn (4/5)
          c3DF.colNames).1).1 ∧
    ("customer_phone", "customer_phone") ∈
      (validateMappings c3Parsers c3DF
        (autoDetectColumns zeroRatio zeroRatio noSyn (4/5)
          c3DF.colNames).1).1 ∧
    "customer_id" ≠ "customer_phone" := by
  with_unfolding_all decide

/-- C3 (amended). The mapping produced by auto-detection is
source-injective — conflict resolution enforces that no two
canonical fields share a source column — but the customer_id
fallback of mapping validation aliases the already-mapped
customer_phone (or customer_email) column, so in the final mapping a
duplicated source column can exist and always involves customer_id. -/
theorem claim_C3_amended :
    (∀ (R T : String → String → ℚ) (syn : String → Option SynEntry)
      (τ : ℚ) (srcCols : List String),
      sourceInjective (autoDetectColumns R T syn τ srcCols).1) ∧
    (∀ (P : Parsers) (df : DFrame) (m0 : List (String × String)),
      sourceInjective m0 →
      ∀ p ∈ (validateMappings P df m0).1,
        ∀ q ∈ (validateMappings P df m0).1,
        p.1 ≠ q.1 → p.2 = q.2 →
        p.1 = "customer_id" ∨ q.1 = "customer_id") := by
  constructor
  · intro R T syn τ srcCols
    unfold autoDetectColumns
    dsimp only
    exact resolve_sourceInjective _ _
      (autoDetect_pre_nodup R T syn srcCols _)
  · intro P df m0 hinj p hp q hq hne hpq
    rcases vm_m_cases P df m0 with hsame | ⟨src, hext, _⟩
    · rw [hsame] at hp hq
      exact absurd (hinj p hp q hq hpq) hne
    · rw [hext] at hp hq
      rcases List.mem_append.mp hp with hp' | hp'
      · rcases List.mem_append.mp hq with hq' | hq'
        · exact absurd (hinj p hp' q hq' hpq) hne
        · right
          have := List.mem_singleton.mp hq'
          exact congrArg Prod.fst this
      · left
        have := List.mem_singleton.mp hp'
        exact congrArg Prod.fst this

/-- C3 witness: the amended statement applied to the counterexample
inputs — the auto-detected mapping itself is source-injective, and
the duplicate introduced by validation involves customer_id. -/
theorem claim_C3_witness :
    sourceInjective (autoDetectColumns zeroRatio zeroRatio noSyn (4/5)
      c3DF.colNames).1 ∧
    ("customer_id" : String) = "customer_id" ∨
      ("customer_phone" : String) = "customer_id" :=
  Or.inl ⟨claim_C3_amended.1 zeroRatio zeroRatio noSyn (4/5)
    c3DF.colNames, rfl⟩

/-- C10. For every DataFrame and column mapping, automatic strategy
recommendation never returns 'group_by_customer_date_sequential':
its guard requires customer_id and order_date, which already
satisfies the earlier customer+date branch, so the sequential
strategy can only be requested explicitly, never via
auto-detection (`detect_data_level` attaches only recommended
strategies). -/
theorem claim_C10 :
    (∀ a b c d : Bool, recommendStrategyCore a b c d ≠
      "group_by_customer_date_sequential") ∧
    (∀ (c : DfCols) (rows : List LineRow),
      (detectDataLevel c rows).aggregation_strategy ≠
        some "group_by_customer_date_sequential") := by
  refine ⟨recommendStrategyCore_ne_seq, fun c rows => ?_⟩
  unfold detectDataLevel
  dsimp only
  rw [apply_ite (fun d : Detection => d.aggregation_strategy)]
  intro hcon
  rcases ite_eq_iff.mp hcon with ⟨_, h⟩ | ⟨_, h⟩
  · exact recommendStrategyCore_ne_seq c.order_id c.customer_id
      c.order_date c.order_item_id (Option.some.injEq .. ▸ h)
  · exact Option.noConfusion h

/-- Constant similarity ratio used to instantiate the external
fuzzywuzzy ratios in concrete counterexamples and witnesses. -/
def halfRatio : String → String → ℚ := fun _ _ => 1/2

/-- Modelled from the spec (for refutation of C5): the per-synonym
score as the specification words it, with the substring bonus
restricted to containments whose contained string has length at
least 4. -/
def specScorePair (R T : String → String → ℚ) (srcN synN : String) : ℚ :=
  let s := max (R srcN synN) (T srcN synN)
  if (strIn synN srcN && decide (synN.length ≥ 4)) ||
     (strIn srcN synN && decide (srcN.length ≥ 4)) then s + 1/10 else s

/-- C5 counterexample. For the header "ab" and synonym "abc"
(unequal after normalization, containment with contained length
2 < 4) the code still adds the 0.1 bonus: with both external ratios
constantly 1/2 the code scores 3/5 while the spec's formula gives
1/2 — the claimed length-4 restriction does not exist in the code. -/
theorem claim_C5_counterexample :
    normalizeHeader "ab" ≠ normalizeHeader "abc" ∧
    calculateMatchScore halfRatio halfRatio "ab" ["abc"] = 3/5 ∧
    min (max 0 (specScorePair halfRatio halfRatio
      (normalizeHeader "ab") (normalizeHeader "abc"))) 1 = 1/2 ∧
    (3/5 : ℚ) ≠ 1/2 := by
  refine ⟨by decide, by with_unfolding_all decide,
    by with_unfolding_all decide, by with_unfolding_all decide⟩

/-- C5 (amended). For every source header and synonym that are not
equal after normalization, the match score is the maximum of the
character-similarity ratio and the token-order-insensitive ratio,
with the fixed 0.1 bonus added whenever one normalized string
contains the other as a substring — with no minimum length on the
contained string — and the result clamped into [0, 1]. -/
theorem claim_C5_amended (R T : String → String → ℚ) (src syn : String)
    (h : normalizeHeader src ≠ normalizeHeader syn) :
    calculateMatchScore R T src [syn] =
      min (max 0 (scorePair R T (normalizeHeader src)
        (normalizeHeader syn))) 1 := by
  simp only [calculateMatchScore, cmsAux, if_neg h]

/-- C5 witness: the amended score equation evaluated at the header
"qty" against the synonym "quantity". -/
theorem claim_C5_witness :
    calculateMatchScore halfRatio halfRatio "qty" ["quantity"] =
      min (max 0 (scorePair halfRatio halfRatio
        (normalizeHeader "qty") (normalizeHeader "quantity"))) 1 :=
  claim_C5_amended halfRatio halfRatio "qty" "quantity" (by decide)

/-- Parser instance for the C4 counterexample: auto-detection parses
everything except the string "x", every explicit format parses
everything. -/
def ceParser : Parsers where
  parseNum := fun _ => none
  toDate := fun f c =>
    match f, c with
    | none, .str s => if s = "x" then none else some 0
    | _, _ => some 0
  now := 0

/-- Column for the C4 counterexample: 24 parseable strings and one
that only auto-detection fails on. -/
def ceCol : List Cell := List.replicate 24 (Cell.str "a") ++ [Cell.str "x"]

/-- C4 counterexample. On `ceCol` the auto-detection candidate
measures 24/25 = 96% success, which exceeds the 95% early-stop
bound, so the cascade stops and keeps it even though a later
candidate in the list measures 100%: the kept candidate is not the
one with the highest measured success rate among all candidates. -/
theorem claim_C4_counterexample :
    (dtScan ceParser ceCol).2 = 24/25 ∧
    (1 : ℚ) ∈ dtRates ceParser ceCol ∧
    (dtScan ceParser ceCol).2 < (dtRates ceParser ceCol).foldr max 0 := by
  refine ⟨by with_unfolding_all decide, by with_unfolding_all decide,
    by with_unfolding_all decide⟩

/-- C4 (amended). The cascade keeps the candidate with the highest
measured success rate among all candidates only when no candidate
exceeds the 95% early-stop bound (first candidate wins exact ties);
and whenever every candidate's measured success rate is below 50%,
the field is reported as a validation error and left unconverted. -/
theorem claim_C4_amended :
    (∀ (P : Parsers) (col : List Cell),
      (∀ r ∈ dtRates P col, r ≤ 95/100) →
      (dtScan P col).2 = (dtRates P col).foldr max 0) ∧
    (∀ (P : Parsers) (field : String) (col : List Cell),
      (∀ r ∈ dtRates P col, r < 1/2) →
      (dtApply P field col).1 = none ∧ (dtApply P field col).2.1 ≠ []) := by
  constructor
  · intro P col h
    have := cascadeScan_rate_no_break (dtCandidates P col)
      (fun p hp => h p.2 (List.mem_map_of_mem Prod.snd hp)) none 0
    simpa [dtScan, dtRates] using this
  · intro P field col h
    have hscan : (dtScan P col).2 < 1/2 := by
      have hle : ∀ p ∈ dtCandidates P col, p.2 ≤ 95/100 := by
        intro p hp
        have := h p.2 (List.mem_map_of_mem Prod.snd hp)
        linarith
      have := cascadeScan_rate_no_break (dtCandidates P col) hle none 0
      rw [dtScan, this]
      refine foldr_max_lt _ _ _ (by norm_num) ?_
      intro x hx
      exact h x (by simpa [dtRates] using hx)
    cases hb : (dtScan P col).1 with
    | none =>
      have hsc : dtScan P col = (none, (dtScan P col).2) :=
        Prod.ext hb rfl
      rw [dtApply_eq_none P field col _ hsc]
      exact ⟨rfl, by simp⟩
    | some best =>
      have hsc : dtScan P col = (some best, (dtScan P col).2) :=
        Prod.ext hb rfl
      rw [dtApply_eq_low P field col best _ hsc (by exact hscan)]
      exact ⟨rfl, by simp⟩

/-- Parser instance for the C4 witness: auto-detection parses only
the string "a", every explicit format fails. -/
def wParser : Parsers where
  parseNum := fun _ => none
  toDate := fun f c =>
    match f, c with
    | none, .str "a" => some 5
    | _, _ => none
  now := 0

def wCol : List Cell := [Cell.str "a", Cell.str "x"]

def wColBad : List Cell := [Cell.str "x", Cell.str "y", Cell.str "z"]

/-- C4 witness: on `wCol` no candidate exceeds 95% and the scan
keeps the maximal rate 1/2; on `wColBad` every candidate is below
50% and the field is left unconverted with an error. -/
theorem claim_C4_witness :
    (dtScan wParser wCol).2 = (dtRates wParser wCol).foldr max 0 ∧
    ((dtApply wParser "order_date" wColBad).1 = none ∧
     (dtApply wParser "order_date" wColBad).2.1 ≠ []) :=
  ⟨claim_C4_amended.1 wParser wCol (by with_unfolding_all decide),
   claim_C4_amended.2 wParser "order_date" wColBad
     (by with_unfolding_all decide)⟩

/-- Row builder for the C2 examples: customer "c", date 1, the given
order_id and item_price. -/
def mkRowC2 (oid : Option String) (p : ℚ) : LineRow :=
  ⟨oid, some "c", some 1, none, some p, none, none, none, none⟩

/-- Column set of the C2 examples: order_id, customer_id, order_date
and item_price present. -/
def c2Cols : DfCols :=
  ⟨true, true, true, false, true, false, false, false, false,
   false, false, false, false, false, false, false⟩

def c2Rows : List LineRow := [mkRowC2 none 5, mkRowC2 (some "A") 3]

/-- C2. Counterexample: on a table whose first row has a null
order_id, `_aggregate_by_order_id` (a pandas groupby on order_id)
drops that row — the output holds one order totalling 3 while the
chosen price column sums to 8 over the two input rows, so a source
row is dropped and the total is not conserved. -/
theorem claim_C2_counterexample :
    choosePriceCol c2Cols = some PriceCol.itemPrice ∧
    ((aggByOrderId c2Cols c2Rows).map
      (fun o => o.order_total.getD 0)).sum = 3 ∧
    (c2Rows.map (priceVal PriceCol.itemPrice)).sum = 8 ∧
    (aggByOrderId c2Cols c2Rows).length = 1 ∧
    c2Rows.length = 2 ∧ (3 : ℚ) ≠ 8 := by
  with_unfolding_all decide

/-- C2 (amended). When the grouping key is everywhere non-null the
claim holds exactly (over ℚ no tolerance is needed): by order_id,
the output order_totals sum to the input price column's sum and the
group sizes sum to the row count; by customer+date, when every
order_date is non-null the aggregation succeeds, conserves the sum
and its item_counts sum to the row count; the sequential strategy
conserves both unconditionally. -/
theorem claim_C2_amended (c : DfCols) (rows : List LineRow)
    (pc : PriceCol) (hpc : choosePriceCol c = some pc) :
    ((∀ r ∈ rows, r.order_id ≠ none) →
      ((aggByOrderId c rows).map (fun o => o.order_total.getD 0)).sum =
        (rows.map (priceVal pc)).sum ∧
      ((aggByOrderId c rows).map (fun o =>
        (rows.filter (fun r => r.order_id = some o.order_id)).length)).sum =
        rows.length) ∧
    ((∀ r ∈ rows, r.order_date ≠ none) →
      ∃ out, aggByCustomerDate c rows = some out ∧
        (out.map (fun o => o.order_total.getD 0)).sum =
          (rows.map (priceVal pc)).sum ∧
        (out.map (fun o => o.item_count.getD 0)).sum = rows.length) ∧
    (∃ out, aggSeq c rows = some out ∧
      (out.map (fun o => o.order_total.getD 0)).sum =
        (rows.map (priceVal pc)).sum ∧
      (out.map (fun o => o.item_count.getD 0)).sum = rows.length) :=
  ⟨fun h => aggByOrderId_sums c rows pc hpc h,
   fun h => aggByCustomerDate_sums c rows pc hpc h,
   aggSeq_sums c rows pc hpc⟩

def c2WRows : List LineRow :=
  [mkRowC2 (some "A") 5, mkRowC2 (some "A") 3, mkRowC2 (some "B") 2]

/-- C2 witness: on a three-row table with non-null order_ids the
by-order_id aggregation conserves the price sum. -/
theorem claim_C2_witness :
    ((aggByOrderId c2Cols c2WRows).map
      (fun o => o.order_total.getD 0)).sum =
      (c2WRows.map (priceVal PriceCol.itemPrice)).sum ∧
    ((aggByOrderId c2Cols c2WRows).map (fun o =>
      (c2WRows.filter
        (fun r => r.order_id = some o.order_id)).length)).sum =
      c2WRows.length :=
  (claim_C2_amended c2Cols c2WRows PriceCol.itemPrice
    (by with_unfolding_all decide)).1 (by decide)

lemma cumsumAux_ge (flags : List Bool) :
    ∀ n, ∀ x ∈ cumsumAux n flags, n ≤ x := by
  induction flags with
  | nil => intro n x hx; cases hx
  | cons b bs ih =>
    intro n x hx
    rw [cumsumAux] at hx
    rcases List.mem_cons.mp hx with h1 | h2
    · rw [h1]; exact Nat.le_add_right n _
    · exact le_trans (Nat.le_add_right n _) (ih _ x h2)

lemma cumsumAux_sorted (flags : List Bool) :
    ∀ n, List.Sorted (fun a b => a ≤ b) (cumsumAux n flags) := by
  induction flags with
  | nil => intro n; exact List.sorted_nil
  | cons b bs ih =>
    intro n
    rw [cumsumAux, List.sorted_cons]
    exact ⟨fun x hx => cumsumAux_ge bs _ x hx, ih _⟩

lemma newOrderFlags_get (l : List LineRow) (i : Nat)
    (hi : i + 1 < l.length) (h2 : i + 1 < (newOrderFlags l).length) :
    (newOrderFlags l)[i+1] =
      (pdNe l[i+1].customer_id l[i].customer_id ||
       pdNe l[i+1].order_date l[i].order_date) := by
  match l with
  | [] => simp at hi
  | r0 :: rest =>
    simp only [newOrderFlags, List.getElem_cons_succ, List.getElem_map,
      List.getElem_zip]

/-- Row builder for the C7 example: customer `cid` on day `d`, price
column item_price = 1. -/
def mkRowC7 (cid : String) (d : ℤ) : LineRow :=
  ⟨some cid, some cid, some d, none, some 1, none, none, none, none⟩

def c7Rows : List LineRow :=
  [mkRowC7 "A" 1, mkRowC7 "A" 1, mkRowC7 "A" 2, mkRowC7 "B" 2]

/-- C7. In the sequential strategy, on the sorted rows a boundary
flag is set at position i+1 exactly when the row's customer_id or
order_date differs from the row before it (given non-null keys, as
pandas `!=` also fires on NaN); the synthetic order ids — the
cumulative count of the flags — are monotonically non-decreasing;
and the dataset (A,day1),(A,day1),(A,day2),(B,day2) yields exactly
3 synthetic orders. -/
theorem claim_C7 (hasSeq : Bool) (rows : List LineRow)
    (h : ∀ r ∈ rows, r.customer_id ≠ none ∧ r.order_date ≠ none)
    (i : Nat) (hi : i + 1 < (sortRows hasSeq rows).length)
    (h2 : i + 1 < (newOrderFlags (sortRows hasSeq rows)).length) :
    ((newOrderFlags (sortRows hasSeq rows))[i+1] = true ↔
      ((sortRows hasSeq rows)[i+1].customer_id ≠
         (sortRows hasSeq rows)[i].customer_id ∨
       (sortRows hasSeq rows)[i+1].order_date ≠
         (sortRows hasSeq rows)[i].order_date)) ∧
    List.Sorted (fun a b => a ≤ b)
      (cumsumFlags (newOrderFlags (sortRows hasSeq rows))) ∧
    (aggSeq c2Cols c7Rows).map (fun out => out.length) = some 3 := by
  have hperm := sortRows_perm hasSeq rows
  refine ⟨?_, ?_, by with_unfolding_all decide⟩
  · have hmem1 : (sortRows hasSeq rows)[i+1] ∈ rows :=
      hperm.subset (List.getElem_mem _)
    have hmem0 : (sortRows hasSeq rows)[i] ∈ rows :=
      hperm.subset (List.getElem_mem _)
    obtain ⟨hc1, hd1⟩ := h _ hmem1
    obtain ⟨hc0, hd0⟩ := h _ hmem0
    obtain ⟨a1, ha1⟩ := Option.ne_none_iff_exists'.mp hc1
    obtain ⟨a0, ha0⟩ := Option.ne_none_iff_exists'.mp hc0
    obtain ⟨b1, hb1⟩ := Option.ne_none_iff_exists'.mp hd1
    obtain ⟨b0, hb0⟩ := Option.ne_none_iff_exists'.mp hd0
    rw [newOrderFlags_get _ i hi h2, ha1, ha0, hb1, hb0]
    simp [pdNe]
  · rw [cumsumFlags_eq]
    exact cumsumAux_sorted _ 0

/-- C7 witness: the example rows have non-null keys, the synthetic
ids are sorted there, and the example forms 3 orders. -/
theorem claim_C7_witness :
    (∀ r ∈ c7Rows, r.customer_id ≠ none ∧ r.order_date ≠ none) ∧
    List.Sorted (fun a b => a ≤ b)
      (cumsumFlags (newOrderFlags (sortRows false c7Rows))) ∧
    (aggSeq c2Cols c7Rows).map (fun out => out.length) = some 3 := by
  have hcl := claim_C7 false c7Rows (by decide) 1
    (by with_unfolding_all decide) (by with_unfolding_all decide)
  exact ⟨by decide, hcl.2.1, hcl.2.2⟩

lemma maskFilter_cons (b : Bool) (ms : List Bool) (x : α) (xs : List α) :
    maskFilter (b :: ms) (x :: xs) =
      if b then x :: maskFilter ms xs else maskFilter ms xs := by
  cases b <;> simp [maskFilter, List.filter_cons]

lemma maskFilter_nil_r (ms : List Bool) :
    maskFilter ms ([] : List α) = [] := by
  simp [maskFilter]

lemma maskFilter_true (mask : List Bool) :
    ∀ (xs : List α), (∀ b ∈ mask, b = true) → xs.length ≤ mask.length →
    maskFilter mask xs = xs := by
  induction mask with
  | nil =>
    intro xs _ hlen
    cases xs with
    | nil => rfl
    | cons x xs => simp at hlen
  | cons b ms ih =>
    intro xs hall hlen
    cases xs with
    | nil => exact maskFilter_nil_r _
    | cons x xs =>
      rw [maskFilter_cons, if_pos (hall b (List.mem_cons_self b ms)),
        ih xs (fun c hc => hall c (List.mem_cons_of_mem b hc))
          (by simpa using hlen)]

lemma maskFilter_sublist (mask : List Bool) :
    ∀ xs : List α, List.Sublist (maskFilter mask xs) xs := by
  induction mask with
  | nil => intro xs; simp [maskFilter]
  | cons b ms ih =>
    intro xs
    cases xs with
    | nil => rw [maskFilter_nil_r]
    | cons x xs =>
      rw [maskFilter_cons]
      cases b with
      | false =>
        rw [if_neg Bool.false_ne_true]
        exact List.Sublist.cons x (ih xs)
      | true =>
        rw [if_pos rfl]
        exact List.Sublist.cons₂ x (ih xs)

lemma maskFilter_length_congr (mask : List Bool) :
    ∀ (xs : List α) (ys : List β), xs.length = ys.length →
    (maskFilter mask xs).length = (maskFilter mask ys).length := by
  induction mask with
  | nil => intro xs ys h; simp [maskFilter]
  | cons b ms ih =>
    intro xs ys h
    cases xs with
    | nil =>
      cases ys with
      | nil => rfl
      | cons y ys => simp at h
    | cons x xs =>
      cases ys with
      | nil => simp at h
      | cons y ys =>
        rw [maskFilter_cons, maskFilter_cons]
        have h2 : xs.length = ys.length := by simpa using h
        cases b with
        | false =>
          rw [if_neg Bool.false_ne_true, if_neg Bool.false_ne_true]
          exact ih xs ys h2
        | true =>
          rw [if_pos rfl, if_pos rfl]
          simp [ih xs ys h2]

lemma maskFilter_map_pred (p : α → Bool) (xs : List α) :
    maskFilter (xs.map p) xs = xs.filter p := by
  induction xs with
  | nil => rfl
  | cons x xs ih =>
    rw [List.map_cons, maskFilter_cons, List.filter_cons]
    cases hx : p x with
    | false =>
      rw [if_neg Bool.false_ne_true, if_neg Bool.false_ne_true]
      exact ih
    | true => rw [if_pos rfl, if_pos rfl, ih]

lemma getCol_applyMask (df : DFrame) (mask : List Bool) (s : String) :
    (df.applyMask mask).getCol s = (df.getCol s).map (maskFilter mask) := by
  obtain ⟨cols⟩ := df
  unfold DFrame.applyMask DFrame.getCol
  dsimp only
  induction cols with
  | nil => rfl
  | cons e es ih =>
    rw [List.map_cons]
    by_cases he : e.1 = s
    · rw [List.find?_cons_of_pos _ (by simpa using he),
        List.find?_cons_of_pos _ (by simpa using he)]
      rfl
    · rw [List.find?_cons_of_neg _ (by simpa using he),
        List.find?_cons_of_neg _ (by simpa using he)]
      exact ih

lemma applyMask_id (df : DFrame) (n : Nat) (hwf : df.WF n)
    (mask : List Bool) (hlen : n ≤ mask.length)
    (hall : ∀ b ∈ mask, b = true) : df.applyMask mask = df := by
  obtain ⟨cols⟩ := df
  unfold DFrame.applyMask
  congr 1
  have hpt : ∀ e ∈ cols, (e.1, maskFilter mask e.2) = e := by
    intro e he
    have hl : e.2.length = n := hwf e he
    rw [maskFilter_true mask e.2 hall (by rw [hl]; exact hlen)]
  rw [List.map_congr_left hpt]
  exact List.map_id' cols

lemma applyMask_WF (df : DFrame) (mask : List Bool) (n : Nat)
    (hwf : df.WF n) :
    (df.applyMask mask).WF
      ((maskFilter mask (List.replicate n Cell.null)).length) := by
  intro e he
  unfold DFrame.applyMask at he
  obtain ⟨e0, he0, heq⟩ := List.mem_map.mp he
  rw [← heq]
  exact maskFilter_length_congr mask e0.2 _
    (by rw [hwf e0 he0, List.length_replicate])

lemma getCol_length (df : DFrame) (n : Nat) (hwf : df.WF n)
    (s : String) (col : List Cell) (h : df.getCol s = some col) :
    col.length = n := by
  unfold DFrame.getCol at h
  cases hf : df.cols.find? (fun e => e.1 = s) with
  | none => rw [hf] at h; cases h
  | some e =>
    rw [hf] at h
    have hm := List.mem_of_find?_eq_some hf
    simp only [Option.map_some'] at h
    injection h with h
    rw [← h]
    exact hwf e hm

lemma notDupMaskAux_length (xs : List Cell) :
    ∀ seen, (notDupMaskAux seen xs).length = xs.length := by
  induction xs with
  | nil => intro seen; rfl
  | cons c cs ih => intro seen; rw [notDupMaskAux]; simp [ih]

lemma notDupMask_length (xs : List Cell) :
    (notDupMask xs).length = xs.length :=
  notDupMaskAux_length xs []

lemma maskFilter_notDupAux (xs : List Cell) :
    ∀ seen, (maskFilter (notDupMaskAux seen xs) xs).Nodup ∧
      ∀ c ∈ maskFilter (notDupMaskAux seen xs) xs, c ∉ seen := by
  induction xs with
  | nil =>
    intro seen
    rw [notDupMaskAux, maskFilter_nil_r]
    exact ⟨List.nodup_nil, fun c hc => absurd hc (List.not_mem_nil c)⟩
  | cons c cs ih =>
    intro seen
    rw [notDupMaskAux, maskFilter_cons]
    cases hsc : seen.contains c with
    | true =>
      rw [Bool.not_true, if_neg Bool.false_ne_true]
      refine ⟨(ih (c :: seen)).1, fun x hx hmem => ?_⟩
      exact (ih (c :: seen)).2 x hx (List.mem_cons_of_mem c hmem)
    | false =>
      rw [Bool.not_false, if_pos rfl]
      have hM := ih (c :: seen)
      constructor
      · rw [List.nodup_cons]
        refine ⟨fun hcM => ?_, hM.1⟩
        exact hM.2 c hcM (List.mem_cons_self c seen)
      · intro x hx
        rcases List.mem_cons.mp hx with h1 | h2
        · rw [h1]
          intro hmem
          have : seen.contains c = true := List.elem_eq_true_of_mem hmem
          rw [hsc] at this
          cases this
        · intro hmem
          exact hM.2 x h2 (List.mem_cons_of_mem c hmem)

lemma notDupMask_nodup (xs : List Cell) :
    (maskFilter (notDupMask xs) xs).Nodup :=
  (maskFilter_notDupAux xs []).1

lemma notDupMaskAux_true (xs : List Cell) :
    ∀ seen, xs.Nodup → (∀ c ∈ xs, c ∉ seen) →
    ∀ b ∈ notDupMaskAux seen xs, b = true := by
  induction xs with
  | nil => intro seen _ _ b hb; cases hb
  | cons c cs ih =>
    intro seen hnd hdisj b hb
    obtain ⟨hcn, hcs⟩ := List.nodup_cons.mp hnd
    rw [notDupMaskAux] at hb
    rcases List.mem_cons.mp hb with h1 | h2
    · rw [h1]
      have hc : c ∉ seen := hdisj c (List.mem_cons_self c cs)
      simpa using hc
    · refine ih (c :: seen) hcs (fun x hx hmem => ?_) b h2
      rcases List.mem_cons.mp hmem with hxc | hxs
      · rw [hxc] at hx; exact hcn hx
      · exact hdisj x (List.mem_cons_of_mem c hx) hxs

lemma notDupMask_true (xs : List Cell) (h : xs.Nodup) :
    ∀ b ∈ notDupMask xs, b = true :=
  notDupMaskAux_true xs [] h (fun c _ hc => absurd hc (List.not_mem_nil c))

lemma map_pred_true (p : α → Bool) (xs : List α)
    (h : ∀ x ∈ xs, p x = true) : ∀ b ∈ xs.map p, b = true := by
  intro b hb
  obtain ⟨x, hx, hpx⟩ := List.mem_map.mp hb
  rw [← hpx]
  exact h x hx

/-- The cell predicate of the negative-total mask. -/
def negPred (P : Parsers) (c : Cell) : Bool :=
  match numCoerce P c with | .num q => decide (q ≥ 0) | _ => false

lemma negMask_eq (P : Parsers) (col : List Cell) :
    negMask P col = col.map (negPred P) := rfl

/-- The cell predicate of the empty-identifier mask. -/
def emptyPred (c : Cell) : Bool := strTrim (cellStr c) ≠ ""

lemma emptyMask_eq (col : List Cell) :
    emptyMask col = col.map emptyPred := rfl

/-- The column a field maps to (if any) satisfies `Q` in `df`. -/
def ColInv (df : DFrame) (m : List (String × String)) (field : String)
    (Q : List Cell → Prop) : Prop :=
  ∀ src col, (m.find? (fun e => e.1 = field)).map Prod.snd = some src →
    df.getCol src = some col → Q col

lemma ColInv_applyMask (df : DFrame) (mask : List Bool)
    (m : List (String × String)) (field : String) (Q : List Cell → Prop)
    (hQ : ∀ xs ys, List.Sublist xs ys → Q ys → Q xs)
    (h : ColInv df m field Q) : ColInv (df.applyMask mask) m field Q := by
  intro src col hf hg
  rw [getCol_applyMask] at hg
  cases hc : df.getCol src with
  | none => rw [hc] at hg; cases hg
  | some col0 =>
    rw [hc] at hg
    simp only [Option.map_some'] at hg
    injection hg with hg
    rw [← hg]
    exact hQ _ _ (maskFilter_sublist mask col0) (h src col0 hf hc)

lemma stepDedup_frame (m : List (String × String))
    (st : DFrame × CleanSummary) :
    (stepDedup m st).1 = st.1 ∨
      ∃ mask, (stepDedup m st).1 = st.1.applyMask mask := by
  unfold stepDedup
  cases (m.find? (fun e => e.1 = "order_id")).map Prod.snd with
  | none => exact Or.inl rfl
  | some src =>
    dsimp only
    cases st.1.getCol src with
    | none => exact Or.inl rfl
    | some col => exact Or.inr ⟨notDupMask col, rfl⟩

lemma stepNegative_frame (P : Parsers) (m : List (String × String))
    (st : DFrame × CleanSummary) :
    (stepNegative P m st).1 = st.1 ∨
      ∃ mask, (stepNegative P m st).1 = st.1.applyMask mask := by
  unfold stepNegative
  cases (m.find? (fun e => e.1 = "order_total")).map Prod.snd with
  | none => exact Or.inl rfl
  | some src =>
    dsimp only
    cases st.1.getCol src with
    | none => exact Or.inl rfl
    | some col => exact Or.inr ⟨negMask P col, rfl⟩

lemma stepEmpty_frame (m : List (String × String)) (field : String)
    (st : DFrame × CleanSummary) :
    (stepEmpty m field st).1 = st.1 ∨
      ∃ mask, (stepEmpty m field st).1 = st.1.applyMask mask := by
  unfold stepEmpty
  cases (m.find? (fun e => e.1 = field)).map Prod.snd with
  | none => exact Or.inl rfl
  | some src =>
    dsimp only
    cases st.1.getCol src with
    | none => exact Or.inl rfl
    | some col => exact Or.inr ⟨emptyMask col, rfl⟩

lemma WF_of_frame (st : DFrame × CleanSummary) (df2 : DFrame)
    (n : Nat) (hwf : st.1.WF n)
    (hcase : df2 = st.1 ∨ ∃ mask, df2 = st.1.applyMask mask) :
    ∃ n2, df2.WF n2 := by
  rcases hcase with h | ⟨mask, h⟩
  · exact ⟨n, by rw [h]; exact hwf⟩
  · exact ⟨_, by rw [h]; exact applyMask_WF st.1 mask n hwf⟩

lemma ColInv_of_frame (st : DFrame × CleanSummary) (df2 : DFrame)
    (m : List (String × String)) (field : String) (Q : List Cell → Prop)
    (hQ : ∀ xs ys, List.Sublist xs ys → Q ys → Q xs)
    (hcase : df2 = st.1 ∨ ∃ mask, df2 = st.1.applyMask mask)
    (h : ColInv st.1 m field Q) : ColInv df2 m field Q := by
  rcases hcase with heq | ⟨mask, heq⟩
  · rw [heq]; exact h
  · rw [heq]; exact ColInv_applyMask st.1 mask m field Q hQ h

lemma stepDedup_id (m : List (String × String)) (df : DFrame)
    (s : CleanSummary) (n : Nat) (hwf : df.WF n)
    (hinv : ColInv df m "order_id" (fun col => col.Nodup)) :
    stepDedup m (df, s) = (df, s) := by
  unfold stepDedup
  cases hfind : (m.find? (fun e => e.1 = "order_id")).map Prod.snd with
  | none => rfl
  | some src =>
    dsimp only
    cases hcol : df.getCol src with
    | none => rfl
    | some col =>
      have hnd := hinv src col hfind hcol
      have hlen := getCol_length df n hwf src col hcol
      have hid : df.applyMask (notDupMask col) = df :=
        applyMask_id df n hwf _
          (by rw [notDupMask_length, hlen]) (notDupMask_true col hnd)
      dsimp only
      rw [hid, Nat.sub_self]
      simp [logStep]

lemma stepNegative_id (P : Parsers) (m : List (String × String))
    (df : DFrame) (s : CleanSummary) (n : Nat) (hwf : df.WF n)
    (hinv : ColInv df m "order_total"
      (fun col => ∀ c ∈ col, negPred P c = true)) :
    stepNegative P m (df, s) = (df, s) := by
  unfold stepNegative
  cases hfind : (m.find? (fun e => e.1 = "order_total")).map Prod.snd with
  | none => rfl
  | some src =>
    dsimp only
    cases hcol : df.getCol src with
    | none => rfl
    | some col =>
      have hlen := getCol_length df n hwf src col hcol
      have hid : df.applyMask (negMask P col) = df := by
        rw [negMask_eq]
        exact applyMask_id df n hwf _ (by rw [List.length_map, hlen])
          (map_pred_true _ _ (hinv src col hfind hcol))
      dsimp only
      rw [hid, Nat.sub_self]
      simp [logStep]

lemma stepEmpty_id (m : List (String × String)) (field : String)
    (df : DFrame) (s : CleanSummary) (n : Nat) (hwf : df.WF n)
    (hinv : ColInv df m field
      (fun col => ∀ c ∈ col, emptyPred c = true)) :
    stepEmpty m field (df, s) = (df, s) := by
  unfold stepEmpty
  cases hfind : (m.find? (fun e => e.1 = field)).map Prod.snd with
  | none => rfl
  | some src =>
    dsimp only
    cases hcol : df.getCol src with
    | none => rfl
    | some col =>
      have hlen := getCol_length df n hwf src col hcol
      have hid : df.applyMask (emptyMask col) = df := by
        rw [emptyMask_eq]
        exact applyMask_id df n hwf _ (by rw [List.length_map, hlen])
          (map_pred_true _ _ (hinv src col hfind hcol))
      dsimp only
      rw [hid, Nat.sub_self]
      simp [logStep]

lemma stepDedup_post (m : List (String × String))
    (st : DFrame × CleanSummary) :
    ColInv (stepDedup m st).1 m "order_id" (fun col => col.Nodup) := by
  unfold stepDedup
  cases hfind : (m.find? (fun e => e.1 = "order_id")).map Prod.snd with
  | none =>
    intro src col hf hg
    rw [hfind] at hf
    cases hf
  | some src0 =>
    dsimp only
    cases hcol : st.1.getCol src0 with
    | none =>
      intro src col hf hg
      rw [hfind] at hf
      injection hf with hf
      dsimp only at hg
      rw [← hf, hcol] at hg
      cases hg
    | some col0 =>
      intro src col hf hg
      rw [hfind] at hf
      injection hf with hf
      rw [← hf] at hg
      dsimp only at hg
      rw [getCol_applyMask, hcol] at hg
      simp only [Option.map_some'] at hg
      injection hg with hg
      rw [← hg]
      exact notDupMask_nodup col0

lemma stepNegative_post (P : Parsers) (m : List (String × String))
    (st : DFrame × CleanSummary) :
    ColInv (stepNegative P m st).1 m "order_total"
      (fun col => ∀ c ∈ col, negPred P c = true) := by
  unfold stepNegative
  cases hfind : (m.find? (fun e => e.1 = "order_total")).map Prod.snd with
  | none =>
    intro src col hf hg
    rw [hfind] at hf
    cases hf
  | some src0 =>
    dsimp only
    cases hcol : st.1.getCol src0 with
    | none =>
      intro src col hf hg
      rw [hfind] at hf
      injection hf with hf
      dsimp only at hg
      rw [← hf, hcol] at hg
      cases hg
    | some col0 =>
      intro src col hf hg
      rw [hfind] at hf
      injection hf with hf
      rw [← hf] at hg
      dsimp only at hg
      rw [getCol_applyMask, hcol] at hg
      simp only [Option.map_some'] at hg
      injection hg with hg
      rw [← hg, negMask_eq, maskFilter_map_pred]
      intro cell hcm
      exact (List.mem_filter.mp hcm).2

lemma stepEmpty_post (m : List (String × String)) (field : String)
    (st : DFrame × CleanSummary) :
    ColInv (stepEmpty m field st).1 m field
      (fun col => ∀ c ∈ col, emptyPred c = true) := by
  unfold stepEmpty
  cases hfind : (m.find? (fun e => e.1 = field)).map Prod.snd with
  | none =>
    intro src col hf hg
    rw [hfind] at hf
    cases hf
  | some src0 =>
    dsimp only
    cases hcol : st.1.getCol src0 with
    | none =>
      intro src col hf hg
      rw [hfind] at hf
      injection hf with hf
      dsimp only at hg
      rw [← hf, hcol] at hg
      cases hg
    | some col0 =>
      intro src col hf hg
      rw [hfind] at hf
      injection hf with hf
      rw [← hf] at hg
      dsimp only at hg
      rw [getCol_applyMask, hcol] at hg
      simp only [Option.map_some'] at hg
      injection hg with hg
      rw [← hg, emptyMask_eq, maskFilter_map_pred]
      intro cell hcm
      exact (List.mem_filter.mp hcm).2

/-- The summary `clean_dataframe` starts from. -/
def initSummary (df : DFrame) : CleanSummary := ⟨df.nrows, 0, [], 0⟩

lemma clean_post (P : Parsers) (df : DFrame) (m : List (String × String))
    (rd ri : Bool) (n : Nat) (hwf : df.WF n) :
    (∃ n1, (cleanDataframe P df m rd ri).1.WF n1) ∧
    (rd = true → ColInv (cleanDataframe P df m rd ri).1 m "order_id"
      (fun col => col.Nodup)) ∧
    (ri = true →
      ColInv (cleanDataframe P df m rd ri).1 m "order_total"
        (fun col => ∀ c ∈ col, negPred P c = true) ∧
      ColInv (cleanDataframe P df m rd ri).1 m "order_id"
        (fun col => ∀ c ∈ col, emptyPred c = true) ∧
      ColInv (cleanDataframe P df m rd ri).1 m "customer_id"
        (fun col => ∀ c ∈ col, emptyPred c = true)) := by
  have hQnd : ∀ (xs ys : List Cell), List.Sublist xs ys →
      ys.Nodup → xs.Nodup :=
    fun xs ys h hn => hn.sublist h
  have hQpt : ∀ (p : Cell → Bool) (xs ys : List Cell),
      List.Sublist xs ys → (∀ c ∈ ys, p c = true) →
      (∀ c ∈ xs, p c = true) :=
    fun p xs ys h hp c hc => hp c (h.subset hc)
  cases rd <;> cases ri
  · exact ⟨⟨n, hwf⟩, fun h => absurd h Bool.false_ne_true,
      fun h => absurd h Bool.false_ne_true⟩
  · obtain ⟨nB, hwB⟩ := WF_of_frame (df, initSummary df) _ n hwf
      (stepNegative_frame P m _)
    obtain ⟨nC, hwC⟩ := WF_of_frame
      (stepNegative P m (df, initSummary df)) _ nB hwB
      (stepEmpty_frame m "order_id" _)
    obtain ⟨nD, hwD⟩ := WF_of_frame
      (stepEmpty m "order_id" (stepNegative P m (df, initSummary df)))
      _ nC hwC (stepEmpty_frame m "customer_id" _)
    refine ⟨⟨nD, hwD⟩, fun h => absurd h Bool.false_ne_true,
      fun _ => ⟨?_, ?_, ?_⟩⟩
    · exact ColInv_of_frame _ _ m "order_total" _ (hQpt (negPred P))
        (stepEmpty_frame m "customer_id" _)
        (ColInv_of_frame _ _ m "order_total" _ (hQpt (negPred P))
          (stepEmpty_frame m "order_id" _)
          (stepNegative_post P m (df, initSummary df)))
    · exact ColInv_of_frame _ _ m "order_id" _ (hQpt emptyPred)
        (stepEmpty_frame m "customer_id" _)
        (stepEmpty_post m "order_id"
          (stepNegative P m (df, initSummary df)))
    · exact stepEmpty_post m "customer_id" _
  · obtain ⟨nA, hwA⟩ := WF_of_frame (df, initSummary df) _ n hwf
      (stepDedup_frame m _)
    exact ⟨⟨nA, hwA⟩, fun _ => stepDedup_post m (df, initSummary df),
      fun h => absurd h Bool.false_ne_true⟩
  · obtain ⟨nA, hwA⟩ := WF_of_frame (df, initSummary df) _ n hwf
      (stepDedup_frame m _)
    obtain ⟨nB, hwB⟩ := WF_of_frame (stepDedup m (df, initSummary df))
      _ nA hwA (stepNegative_frame P m _)
    obtain ⟨nC, hwC⟩ := WF_of_frame
      (stepNegative P m (stepDedup m (df, initSummary df))) _ nB hwB
      (stepEmpty_frame m "order_id" _)
    obtain ⟨nD, hwD⟩ := WF_of_frame
      (stepEmpty m "order_id"
        (stepNegative P m (stepDedup m (df, initSummary df))))
      _ nC hwC (stepEmpty_frame m "customer_id" _)
    refine ⟨⟨nD, hwD⟩, fun _ => ?_, fun _ => ⟨?_, ?_, ?_⟩⟩
    · exact ColInv_of_frame _ _ m "order_id" _ hQnd
        (stepEmpty_frame m "customer_id" _)
        (ColInv_of_frame _ _ m "order_id" _ hQnd
          (stepEmpty_frame m "order_id" _)
          (ColInv_of_frame _ _ m "order_id" _ hQnd
            (stepNegative_frame P m _)
            (stepDedup_post m (df, initSummary df))))
    · exact ColInv_of_frame _ _ m "order_total" _ (hQpt (negPred P))
        (stepEmpty_frame m "customer_id" _)
        (ColInv_of_frame _ _ m "order_total" _ (hQpt (negPred P))
          (stepEmpty_frame m "order_id" _)
          (stepNegative_post P m (stepDedup m (df, initSummary df))))
    · exact ColInv_of_frame _ _ m "order_id" _ (hQpt emptyPred)
        (stepEmpty_frame m "customer_id" _)
        (stepEmpty_post m "order_id"
          (stepNegative P m (stepDedup m (df, initSummary df))))
    · exact stepEmpty_post m "customer_id" _

lemma clean_id (P : Parsers) (df : DFrame) (m : List (String × String))
    (rd ri : Bool) (n : Nat) (hwf : df.WF n)
    (hd : rd = true → ColInv df m "order_id" (fun col => col.Nodup))
    (hn : ri = true → ColInv df m "order_total"
      (fun col => ∀ c ∈ col, negPred P c = true))
    (ho : ri = true → ColInv df m "order_id"
      (fun col => ∀ c ∈ col, emptyPred c = true))
    (hc : ri = true → ColInv df m "customer_id"
      (fun col => ∀ c ∈ col, emptyPred c = true)) :
    cleanDataframe P df m rd ri =
      (df, ⟨df.nrows, 0, [], df.nrows⟩) := by
  cases rd <;> cases ri
  · rfl
  · have h1 : stepNegative P m (df, initSummary df) =
        (df, initSummary df) :=
      stepNegative_id P m df (initSummary df) n hwf (hn rfl)
    have h2 : stepEmpty m "order_id" (df, initSummary df) =
        (df, initSummary df) :=
      stepEmpty_id m "order_id" df (initSummary df) n hwf (ho rfl)
    have h3 : stepEmpty m "customer_id" (df, initSummary df) =
        (df, initSummary df) :=
      stepEmpty_id m "customer_id" df (initSummary df) n hwf (hc rfl)
    show ((stepEmpty m "customer_id" (stepEmpty m "order_id"
        (stepNegative P m (df, initSummary df)))).1,
      { (stepEmpty m "customer_id" (stepEmpty m "order_id"
          (stepNegative P m (df, initSummary df)))).2 with
        final_rows := (stepEmpty m "customer_id" (stepEmpty m "order_id"
          (stepNegative P m (df, initSummary df)))).1.nrows }) =
      (df, ⟨df.nrows, 0, [], df.nrows⟩)
    rw [h1, h2, h3]
    rfl
  · have h0 : stepDedup m (df, initSummary df) = (df, initSummary df) :=
      stepDedup_id m df (initSummary df) n hwf (hd rfl)
    show ((stepDedup m (df, initSummary df)).1,
      { (stepDedup m (df, initSummary df)).2 with
        final_rows := (stepDedup m (df, initSummary df)).1.nrows }) =
      (df, ⟨df.nrows, 0, [], df.nrows⟩)
    rw [h0]
    rfl
  · have h0 : stepDedup m (df, initSummary df) = (df, initSummary df) :=
      stepDedup_id m df (initSummary df) n hwf (hd rfl)
    have h1 : stepNegative P m (df, initSummary df) =
        (df, initSummary df) :=
      stepNegative_id P m df (initSummary df) n hwf (hn rfl)
    have h2 : stepEmpty m "order_id" (df, initSummary df) =
        (df, initSummary df) :=
      stepEmpty_id m "order_id" df (initSummary df) n hwf (ho rfl)
    have h3 : stepEmpty m "customer_id" (df, initSummary df) =
        (df, initSummary df) :=
      stepEmpty_id m "customer_id" df (initSummary df) n hwf (hc rfl)
    show ((stepEmpty m "customer_id" (stepEmpty m "order_id"
        (stepNegative P m (stepDedup m (df, initSummary df))))).1,
      { (stepEmpty m "customer_id" (stepEmpty m "order_id"
          (stepNegative P m (stepDedup m (df, initSummary df))))).2 with
        final_rows := (stepEmpty m "customer_id" (stepEmpty m "order_id"
          (stepNegative P m (stepDedup m
            (df, initSummary df))))).1.nrows }) =
      (df, ⟨df.nrows, 0, [], df.nrows⟩)
    rw [h0, h1, h2, h3]
    rfl

/-- C8. The cleaning pass is idempotent: run on its own output (with
the same mapping and flags), it returns that output unchanged and its
summary records 0 removed rows, no cleaning steps, and original =
final row count. -/
theorem claim_C8 (P : Parsers) (df : DFrame)
    (m : List (String × String)) (rd ri : Bool) (n : Nat)
    (hwf : df.WF n) :
    cleanDataframe P (cleanDataframe P df m rd ri).1 m rd ri =
      ((cleanDataframe P df m rd ri).1,
        ⟨(cleanDataframe P df m rd ri).1.nrows, 0, [],
          (cleanDataframe P df m rd ri).1.nrows⟩) := by
  obtain ⟨⟨n1, hw1⟩, hd, hri⟩ := clean_post P df m rd ri n hwf
  exact clean_id P _ m rd ri n1 hw1 hd (fun h => (hri h).1)
    (fun h => (hri h).2.1) (fun h => (hri h).2.2)

/-- Parser instance for the C8 witness: no string parses as a number
or a date. -/
def c8P : Parsers where
  parseNum := fun _ => none
  toDate := fun _ _ => none
  now := 0

def c8DF : DFrame :=
  ⟨[("order_id",
      [Cell.str "A", Cell.str "A", Cell.str "B", Cell.str ""]),
    ("order_total",
      [Cell.num 5, Cell.num 3, Cell.num (-2), Cell.num 1]),
    ("customer_id",
      [Cell.str "x", Cell.str "y", Cell.str "z", Cell.str "w"])]⟩

def c8Map : List (String × String) :=
  [("order_id", "order_id"), ("order_total", "order_total"),
   ("customer_id", "customer_id")]

/-- C8 witness: a table with a duplicate order id, a negative total
and an empty order id is cleaned; cleaning the result again removes
nothing. -/
theorem claim_C8_witness :
    cleanDataframe c8P (cleanDataframe c8P c8DF c8Map true true).1
        c8Map true true =
      ((cleanDataframe c8P c8DF c8Map true true).1,
        ⟨(cleanDataframe c8P c8DF c8Map true true).1.nrows, 0, [],
          (cleanDataframe c8P c8DF c8Map true true).1.nrows⟩) :=
  claim_C8 c8P c8DF c8Map true true 4
    (by unfold DFrame.WF c8DF; decide)

lemma foldl_errors_append (f : VResult → β → VResult)
    (hf : ∀ r b, ∃ t, (f r b).errors = r.errors ++ t) :
    ∀ (l : List β) (r : VResult),
    ∃ t, (l.foldl f r).errors = r.errors ++ t := by
  intro l
  induction l with
  | nil => intro r; exact ⟨[], by simp⟩
  | cons b bs ih =>
    intro r
    obtain ⟨t1, h1⟩ := hf r b
    obtain ⟨t2, h2⟩ := ih (f r b)
    exact ⟨t1 ++ t2, by
      rw [List.foldl_cons, h2, h1, List.append_assoc]⟩

lemma foldl_pair_errors (f : (DFrame × VResult) → β → (DFrame × VResult))
    (hf : ∀ st b, ∃ t, (f st b).2.errors = st.2.errors ++ t) :
    ∀ (l : List β) (st : DFrame × VResult),
    ∃ t, (l.foldl f st).2.errors = st.2.errors ++ t := by
  intro l
  induction l with
  | nil => intro st; exact ⟨[], by simp⟩
  | cons b bs ih =>
    intro st
    obtain ⟨t1, h1⟩ := hf st b
    obtain ⟨t2, h2⟩ := ih (f st b)
    exact ⟨t1 ++ t2, by
      rw [List.foldl_cons, h2, h1, List.append_assoc]⟩

lemma foldl_errors_eq (f : VResult → β → VResult)
    (hf : ∀ r b, (f r b).errors = r.errors) :
    ∀ (l : List β) (r : VResult), (l.foldl f r).errors = r.errors := by
  intro l
  induction l with
  | nil => intro r; rfl
  | cons b bs ih =>
    intro r
    rw [List.foldl_cons, ih (f r b), hf r b]

lemma reqStep_errors (mapped : DFrame) (m : List (String × String))
    (r : VResult) (field : String) :
    ∃ t, (reqStep mapped m r field).errors = r.errors ++ t := by
  unfold reqStep
  by_cases hf : ((m.find? (fun e => e.1 = field)).isNone : Bool) = true
  · rw [if_pos hf]
    exact ⟨_, rfl⟩
  · rw [if_neg hf]
    cases mapped.getCol field with
    | none => exact ⟨[], (List.append_nil _).symm⟩
    | some col =>
      dsimp only
      split_ifs <;>
        first
          | exact ⟨_, rfl⟩
          | exact ⟨[], (List.append_nil _).symm⟩

lemma reqPhase_errors (mapped : DFrame) (m : List (String × String))
    (r : VResult) :
    ∃ t, (reqPhase mapped m r).errors = r.errors ++ t := by
  unfold reqPhase
  exact foldl_errors_append (reqStep mapped m)
    (reqStep_errors mapped m) requiredFields r

lemma typesStep_errors (P : Parsers) (st : DFrame × VResult)
    (fld : String × Bool) :
    ∃ t, (typesStep P st fld).2.errors = st.2.errors ++ t := by
  unfold typesStep
  cases st.1.getCol fld.1 with
  | none => exact ⟨[], (List.append_nil _).symm⟩
  | some col =>
    dsimp only
    by_cases hskip : textOnlySkip fld.1 = true
    · rw [if_pos hskip]
      exact ⟨[], (List.append_nil _).symm⟩
    · rw [if_neg hskip]
      exact ⟨_, rfl⟩

lemma typesPhase_errors (P : Parsers) (st : DFrame × VResult) :
    ∃ t, (typesPhase P st).2.errors = st.2.errors ++ t := by
  unfold typesPhase
  exact foldl_pair_errors (typesStep P) (typesStep_errors P)
    typeConversions st

lemma qualityPhase_errors (df : DFrame) (r : VResult) :
    (qualityPhase df r).errors = r.errors := by
  unfold qualityPhase
  apply foldl_errors_eq
  intro r e
  split_ifs <;> rfl

lemma dupPhase_errors (df : DFrame) (r : VResult) :
    (dupPhase df r).errors = r.errors := rfl

lemma warnIf_errors (c : Bool) (w : Msg) (r : VResult) :
    (warnIf c w r).errors = r.errors := by
  unfold warnIf
  split_ifs <;> rfl

lemma errIf_errors (c : Bool) (e : Msg) (r : VResult) :
    ∃ t, (errIf c e r).errors = r.errors ++ t := by
  unfold errIf
  split_ifs
  · exact ⟨[e], rfl⟩
  · exact ⟨[], (List.append_nil _).symm⟩

lemma bizPhase_errors (P : Parsers) (df : DFrame) (r : VResult) :
    ∃ t, (bizPhase P df r).errors = r.errors ++ t := by
  unfold bizPhase
  dsimp only
  obtain ⟨t6, h6⟩ := errIf_errors
    (df.colNames.contains "order_id" && decide (bizEmptyOf df "order_id" > 0))
    (.eEmptyIds (bizEmptyOf df "order_id") "order_id")
    (errIf (df.colNames.contains "customer_id" &&
        decide (bizEmptyOf df "customer_id" > 0))
      (.eEmptyIds (bizEmptyOf df "customer_id") "customer_id")
      (warnIf (bizOldD df > 0) (.wOldDates (bizOldD df))
        (warnIf (bizFutD P df > 0) (.wFutureDates (bizFutD P df))
          (warnIf (bizZeroQ df > 0) (.wZeroQuantities (bizZeroQ df))
            (warnIf (bizNegT df > 0) (.wNegativeTotals (bizNegT df)) r)))))
  obtain ⟨t5, h5⟩ := errIf_errors
    (df.colNames.contains "customer_id" &&
      decide (bizEmptyOf df "customer_id" > 0))
    (.eEmptyIds (bizEmptyOf df "customer_id") "customer_id")
    (warnIf (bizOldD df > 0) (.wOldDates (bizOldD df))
      (warnIf (bizFutD P df > 0) (.wFutureDates (bizFutD P df))
        (warnIf (bizZeroQ df > 0) (.wZeroQuantities (bizZeroQ df))
          (warnIf (bizNegT df > 0) (.wNegativeTotals (bizNegT df)) r))))
  refine ⟨t5 ++ t6, ?_⟩
  rw [h6, h5, warnIf_errors, warnIf_errors, warnIf_errors, warnIf_errors,
    List.append_assoc]

lemma currencyPhase_errors (df : DFrame) (r : VResult) :
    (currencyPhase df r).errors = r.errors := by
  unfold currencyPhase
  split
  · dsimp only
    split_ifs <;> rfl
  · rfl

lemma dateRangePhase_errors (df : DFrame) (r : VResult) :
    (dateRangePhase df r).errors = r.errors := by
  unfold dateRangePhase
  split
  · dsimp only
    split
    · rfl
    · split_ifs <;> rfl
  · rfl

/-- C9. Validation never halts mid-way: the final error list is the
required-fields errors, followed by the type-conversion errors,
followed by the business-rule errors (the other phases add only
warnings), all surfaced together in one report; the upload pipeline
halts after validation exactly when more than 20 errors accumulated. -/
theorem claim_C9 (P : Parsers) (df : DFrame)
    (m : List (String × String)) (r : VResult) :
    (∃ dReq dTyp dBiz,
      (reqPhase (mappedDF df m) m (emptyVResult df.nrows)).errors =
        dReq ∧
      (typesPhase P (mappedDF df m,
          reqPhase (mappedDF df m) m (emptyVResult df.nrows))).2.errors =
        dReq ++ dTyp ∧
      (validateDataframe P df m).errors = dReq ++ dTyp ++ dBiz) ∧
    (uploadHaltsAfterValidation r = true ↔ 20 < r.errors.length) := by
  constructor
  · obtain ⟨dReq, hReq⟩ := reqPhase_errors (mappedDF df m) m
      (emptyVResult df.nrows)
    rw [show (emptyVResult df.nrows).errors = [] from rfl,
      List.nil_append] at hReq
    obtain ⟨dTyp, hTyp⟩ := typesPhase_errors P
      (mappedDF df m, reqPhase (mappedDF df m) m (emptyVResult df.nrows))
    obtain ⟨dBiz, hBiz⟩ := bizPhase_errors P
      (typesPhase P (mappedDF df m,
        reqPhase (mappedDF df m) m (emptyVResult df.nrows))).1
      (dupPhase (typesPhase P (mappedDF df m,
          reqPhase (mappedDF df m) m (emptyVResult df.nrows))).1
        (qualityPhase (typesPhase P (mappedDF df m,
            reqPhase (mappedDF df m) m (emptyVResult df.nrows))).1
          (typesPhase P (mappedDF df m,
            reqPhase (mappedDF df m) m (emptyVResult df.nrows))).2))
    refine ⟨dReq, dTyp, dBiz, hReq, ?_, ?_⟩
    · rw [hTyp, hReq]
    · unfold validateDataframe
      dsimp only
      rw [dateRangePhase_errors, currencyPhase_errors, hBiz,
        dupPhase_errors, qualityPhase_errors, hTyp, hReq]
  · unfold uploadHaltsAfterValidation
    simp

lemma reqStep_no_error (mapped : DFrame) (m : List (String × String))
    (r : VResult) (f : String)
    (h : (reqStep mapped m r f).errors = r.errors) :
    (m.find? (fun e => e.1 = f)).isSome = true ∧
    ∀ col, mapped.getCol f = some col →
      ¬ framePct mapped col > 50 := by
  unfold reqStep at h
  by_cases hn : ((m.find? (fun e => e.1 = f)).isNone : Bool) = true
  · rw [if_pos hn] at h
    exfalso
    have hlen := congrArg List.length h
    simp at hlen
  · rw [if_neg hn] at h
    refine ⟨?_, ?_⟩
    · cases hf : m.find? (fun e => e.1 = f) with
      | none => rw [hf] at hn; exact absurd rfl hn
      | some e => rfl
    · intro col hcol h50
      rw [hcol] at h
      dsimp only at h
      rw [if_pos h50] at h
      have hw : (if framePct mapped col > 20 then
          { r with warnings := r.warnings ++ [Msg.wFieldMissing f] }
        else r).errors = r.errors := by
        split_ifs <;> rfl
      dsimp only at h
      rw [hw] at h
      have hlen := congrArg List.length h
      simp at hlen

lemma errIf_no_grow (c : Bool) (e : Msg) (r : VResult)
    (h : (errIf c e r).errors = r.errors) : c = false := by
  cases c
  · rfl
  · exfalso
    unfold errIf at h
    rw [if_pos rfl] at h
    have hlen := congrArg List.length h
    simp at hlen

lemma bizPhase_no_error (P : Parsers) (df : DFrame) (r : VResult)
    (h : (bizPhase P df r).errors = r.errors) :
    (df.colNames.contains "customer_id" &&
      decide (bizEmptyOf df "customer_id" > 0)) = false ∧
    (df.colNames.contains "order_id" &&
      decide (bizEmptyOf df "order_id" > 0)) = false := by
  unfold bizPhase at h
  dsimp only at h
  have hw : (warnIf (bizOldD df > 0) (.wOldDates (bizOldD df))
      (warnIf (bizFutD P df > 0) (.wFutureDates (bizFutD P df))
        (warnIf (bizZeroQ df > 0) (.wZeroQuantities (bizZeroQ df))
          (warnIf (bizNegT df > 0) (.wNegativeTotals (bizNegT df))
            r)))).errors = r.errors := by
    rw [warnIf_errors, warnIf_errors, warnIf_errors, warnIf_errors]
  obtain ⟨t5, h5⟩ := errIf_errors
    (df.colNames.contains "customer_id" &&
      decide (bizEmptyOf df "customer_id" > 0))
    (.eEmptyIds (bizEmptyOf df "customer_id") "customer_id")
    (warnIf (bizOldD df > 0) (.wOldDates (bizOldD df))
      (warnIf (bizFutD P df > 0) (.wFutureDates (bizFutD P df))
        (warnIf (bizZeroQ df > 0) (.wZeroQuantities (bizZeroQ df))
          (warnIf (bizNegT df > 0) (.wNegativeTotals (bizNegT df)) r))))
  obtain ⟨t6, h6⟩ := errIf_errors
    (df.colNames.contains "order_id" &&
      decide (bizEmptyOf df "order_id" > 0))
    (.eEmptyIds (bizEmptyOf df "order_id") "order_id")
    (errIf (df.colNames.contains "customer_id" &&
        decide (bizEmptyOf df "customer_id" > 0))
      (.eEmptyIds (bizEmptyOf df "customer_id") "customer_id")
      (warnIf (bizOldD df > 0) (.wOldDates (bizOldD df))
        (warnIf (bizFutD P df > 0) (.wFutureDates (bizFutD P df))
          (warnIf (bizZeroQ df > 0) (.wZeroQuantities (bizZeroQ df))
            (warnIf (bizNegT df > 0) (.wNegativeTotals (bizNegT df))
              r)))))
  rw [h6, h5, hw] at h
  have hnil : t5 = [] ∧ t6 = [] := by
    have hlen := congrArg List.length h
    simp at hlen
    exact hlen
  refine ⟨errIf_no_grow _
      (.eEmptyIds (bizEmptyOf df "customer_id") "customer_id")
      (warnIf (bizOldD df > 0) (.wOldDates (bizOldD df))
        (warnIf (bizFutD P df > 0) (.wFutureDates (bizFutD P df))
          (warnIf (bizZeroQ df > 0) (.wZeroQuantities (bizZeroQ df))
            (warnIf (bizNegT df > 0) (.wNegativeTotals (bizNegT df))
              r)))) ?_,
    errIf_no_grow _
      (.eEmptyIds (bizEmptyOf df "order_id") "order_id")
      (errIf (df.colNames.contains "customer_id" &&
          decide (bizEmptyOf df "customer_id" > 0))
        (.eEmptyIds (bizEmptyOf df "customer_id") "customer_id")
        (warnIf (bizOldD df > 0) (.wOldDates (bizOldD df))
          (warnIf (bizFutD P df > 0) (.wFutureDates (bizFutD P df))
            (warnIf (bizZeroQ df > 0) (.wZeroQuantities (bizZeroQ df))
              (warnIf (bizNegT df > 0) (.wNegativeTotals (bizNegT df))
                r))))) ?_⟩
  · rw [h5, hnil.1, List.append_nil]
  · rw [h6, hnil.2, List.append_nil]

lemma getCol_contains (df : DFrame) (field : String) (col : List Cell)
    (h : df.getCol field = some col) :
    df.colNames.contains field = true := by
  unfold DFrame.getCol at h
  cases hf : df.cols.find? (fun e => e.1 = field) with
  | none => rw [hf] at h; cases h
  | some e =>
    have hm := List.mem_of_find?_eq_some hf
    have hp := List.find?_some hf
    have he : e.1 = field := by simpa using hp
    have hmem : field ∈ df.colNames := by
      rw [← he]
      exact List.mem_map_of_mem Prod.fst hm
    exact List.elem_eq_true_of_mem hmem

/-- Parser instance for the C1 examples: the date token "d" parses
under auto-detection, nothing else parses, today is day 20000. -/
def c1P : Parsers where
  parseNum := fun _ => none
  toDate := fun f c =>
    match f, c with
    | none, Cell.str "d" => some 11000
    | _, _ => none
  now := 20000

def c1Map : List (String × String) :=
  [("order_id", "order_id"), ("order_date", "order_date"),
   ("order_total", "order_total"), ("customer_id", "customer_id")]

def c1DF : DFrame :=
  ⟨[("order_id", [Cell.str "A", Cell.str "B"]),
    ("order_date", [Cell.str "d", Cell.str "d"]),
    ("order_total", [Cell.num (-5), Cell.num 3]),
    ("customer_id", [Cell.null, Cell.str "x"])]⟩

/-- C1. Counterexample: a validated table can carry a negative
order_total (negative totals only warn) and a null customer_id (50%
nulls only warn, and NaN stringifies to "nan", passing the
empty-string check), yet the report says is_valid = true. -/
theorem claim_C1_counterexample :
    (validateDataframe c1P c1DF c1Map).is_valid = true ∧
    (typedDF c1P (mappedDF c1DF c1Map)).getCol "order_total" =
      some [Cell.num (-5), Cell.num 3] ∧
    (typedDF c1P (mappedDF c1DF c1Map)).getCol "customer_id" =
      some [Cell.null, Cell.str "x"] ∧
    (-5 : ℚ) < 0 := by
  with_unfolding_all decide

/-- C1 (amended). What is_valid = true actually guarantees: every
required field is mapped; every required column present in the
mapped frame has at most 50% nulls; and in the type-coerced frame no
cell of a present customer_id or order_id column stringifies and
trims to the empty string. Null cells and negative totals are not
excluded. -/
theorem claim_C1_amended (P : Parsers) (df : DFrame)
    (m : List (String × String))
    (h : (validateDataframe P df m).is_valid = true) :
    (∀ f ∈ requiredFields, (m.find? (fun e => e.1 = f)).isSome = true) ∧
    (∀ f ∈ requiredFields, ∀ col,
      (mappedDF df m).getCol f = some col →
      ¬ framePct (mappedDF df m) col > 50) ∧
    (∀ field, (field = "customer_id" ∨ field = "order_id") → ∀ col,
      (typesPhase P (mappedDF df m, reqPhase (mappedDF df m) m
          (emptyVResult df.nrows))).1.getCol field = some col →
      ∀ c ∈ col, ¬ strTrim (cellStr c) = "") := by
  have h2 : (validateDataframe P df m).is_valid =
      (validateDataframe P df m).errors.isEmpty := by
    unfold validateDataframe
    dsimp only
  rw [h] at h2
  have hval : (validateDataframe P df m).errors = [] :=
    List.isEmpty_iff.mp h2.symm
  obtain ⟨dReq, hReq⟩ := reqPhase_errors (mappedDF df m) m
    (emptyVResult df.nrows)
  rw [show (emptyVResult df.nrows).errors = [] from rfl,
    List.nil_append] at hReq
  obtain ⟨dTyp, hTyp⟩ := typesPhase_errors P
    (mappedDF df m, reqPhase (mappedDF df m) m (emptyVResult df.nrows))
  obtain ⟨dBiz, hBiz⟩ := bizPhase_errors P
    (typesPhase P (mappedDF df m,
      reqPhase (mappedDF df m) m (emptyVResult df.nrows))).1
    (dupPhase (typesPhase P (mappedDF df m,
        reqPhase (mappedDF df m) m (emptyVResult df.nrows))).1
      (qualityPhase (typesPhase P (mappedDF df m,
          reqPhase (mappedDF df m) m (emptyVResult df.nrows))).1
        (typesPhase P (mappedDF df m,
          reqPhase (mappedDF df m) m (emptyVResult df.nrows))).2))
  have hdecomp : (validateDataframe P df m).errors =
      dReq ++ dTyp ++ dBiz := by
    unfold validateDataframe
    dsimp only
    rw [dateRangePhase_errors, currencyPhase_errors, hBiz,
      dupPhase_errors, qualityPhase_errors, hTyp, hReq]
  rw [hval] at hdecomp
  have hnil : dReq ++ dTyp ++ dBiz = [] := hdecomp.symm
  rw [List.append_eq_nil] at hnil
  obtain ⟨h12, hBnil⟩ := hnil
  rw [List.append_eq_nil] at h12
  obtain ⟨hRnil, hTnil⟩ := h12
  have hreqerr : (reqPhase (mappedDF df m) m
      (emptyVResult df.nrows)).errors = [] := by
    rw [hReq, hRnil]
  have hrf : requiredFields =
      ["order_id", "order_date", "order_total", "customer_id"] := by
    decide
  have hchain : reqPhase (mappedDF df m) m (emptyVResult df.nrows) =
      reqStep (mappedDF df m) m (reqStep (mappedDF df m) m
        (reqStep (mappedDF df m) m (reqStep (mappedDF df m) m
          (emptyVResult df.nrows) "order_id") "order_date")
        "order_total") "customer_id" := by
    unfold reqPhase
    rw [hrf]
    rfl
  obtain ⟨u1, g1⟩ := reqStep_errors (mappedDF df m) m
    (emptyVResult df.nrows) "order_id"
  obtain ⟨u2, g2⟩ := reqStep_errors (mappedDF df m) m
    (reqStep (mappedDF df m) m (emptyVResult df.nrows) "order_id")
    "order_date"
  obtain ⟨u3, g3⟩ := reqStep_errors (mappedDF df m) m
    (reqStep (mappedDF df m) m (reqStep (mappedDF df m) m
      (emptyVResult df.nrows) "order_id") "order_date") "order_total"
  obtain ⟨u4, g4⟩ := reqStep_errors (mappedDF df m) m
    (reqStep (mappedDF df m) m (reqStep (mappedDF df m) m
      (reqStep (mappedDF df m) m (emptyVResult df.nrows) "order_id")
      "order_date") "order_total") "customer_id"
  rw [hchain] at hreqerr
  rw [g4, g3, g2, g1,
    show (emptyVResult df.nrows).errors = [] from rfl,
    List.nil_append, List.append_assoc, List.append_assoc,
    List.append_eq_nil, List.append_eq_nil, List.append_eq_nil]
    at hreqerr
  obtain ⟨hu1, hu2, hu3, hu4⟩ := hreqerr
  have hs1 := reqStep_no_error (mappedDF df m) m
    (emptyVResult df.nrows) "order_id"
    (by rw [g1, hu1, List.append_nil])
  have hs2 := reqStep_no_error (mappedDF df m) m
    (reqStep (mappedDF df m) m (emptyVResult df.nrows) "order_id")
    "order_date" (by rw [g2, hu2, List.append_nil])
  have hs3 := reqStep_no_error (mappedDF df m) m
    (reqStep (mappedDF df m) m (reqStep (mappedDF df m) m
      (emptyVResult df.nrows) "order_id") "order_date") "order_total"
    (by rw [g3, hu3, List.append_nil])
  have hs4 := reqStep_no_error (mappedDF df m) m
    (reqStep (mappedDF df m) m (reqStep (mappedDF df m) m
      (reqStep (mappedDF df m) m (emptyVResult df.nrows) "order_id")
      "order_date") "order_total") "customer_id"
    (by rw [g4, hu4, List.append_nil])
  have hbizeq : (bizPhase P (typesPhase P (mappedDF df m,
      reqPhase (mappedDF df m) m (emptyVResult df.nrows))).1
      (dupPhase (typesPhase P (mappedDF df m,
          reqPhase (mappedDF df m) m (emptyVResult df.nrows))).1
        (qualityPhase (typesPhase P (mappedDF df m,
            reqPhase (mappedDF df m) m (emptyVResult df.nrows))).1
          (typesPhase P (mappedDF df m,
            reqPhase (mappedDF df m) m
              (emptyVResult df.nrows))).2))).errors =
      (dupPhase (typesPhase P (mappedDF df m,
          reqPhase (mappedDF df m) m (emptyVResult df.nrows))).1
        (qualityPhase (typesPhase P (mappedDF df m,
            reqPhase (mappedDF df m) m (emptyVResult df.nrows))).1
          (typesPhase P (mappedDF df m,
            reqPhase (mappedDF df m) m
              (emptyVResult df.nrows))).2)).errors := by
    rw [hBiz, hBnil, List.append_nil]
  obtain ⟨hcondC, hcondO⟩ := bizPhase_no_error P _ _ hbizeq
  refine ⟨?_, ?_, ?_⟩
  · intro f hf
    rw [hrf] at hf
    fin_cases hf
    · exact hs1.1
    · exact hs2.1
    · exact hs3.1
    · exact hs4.1
  · intro f hf
    rw [hrf] at hf
    fin_cases hf
    · exact hs1.2
    · exact hs2.2
    · exact hs3.2
    · exact hs4.2
  · intro field hf col hcol c hcm hemp
    rcases hf with rfl | rfl
    · have hct := getCol_contains _ "customer_id" col hcol
      rw [hct, Bool.true_and] at hcondC
      have hgt := of_decide_eq_false hcondC
      have hc0 : bizEmptyOf (typesPhase P (mappedDF df m,
          reqPhase (mappedDF df m) m (emptyVResult df.nrows))).1
          "customer_id" = 0 := by omega
      unfold bizEmptyOf at hc0
      rw [hcol] at hc0
      dsimp only at hc0
      have hnp := List.countP_eq_zero.mp hc0 c hcm
      exact hnp (by simpa using hemp)
    · have hct := getCol_contains _ "order_id" col hcol
      rw [hct, Bool.true_and] at hcondO
      have hgt := of_decide_eq_false hcondO
      have hc0 : bizEmptyOf (typesPhase P (mappedDF df m,
          reqPhase (mappedDF df m) m (emptyVResult df.nrows))).1
          "order_id" = 0 := by omega
      unfold bizEmptyOf at hc0
      rw [hcol] at hc0
      dsimp only at hc0
      have hnp := List.countP_eq_zero.mp hc0 c hcm
      exact hnp (by simpa using hemp)

def c1WDF : DFrame :=
  ⟨[("order_id", [Cell.str "A", Cell.str "B"]),
    ("order_date", [Cell.str "d", Cell.str "d"]),
    ("order_total", [Cell.num 5, Cell.num 3]),
    ("customer_id", [Cell.str "x", Cell.str "y"])]⟩

/-- C1 witness: a fully valid table validates and the amended
guarantees hold for it. -/
theorem claim_C1_witness :
    (validateDataframe c1P c1WDF c1Map).is_valid = true ∧
    (∀ f ∈ requiredFields,
      (c1Map.find? (fun e => e.1 = f)).isSome = true) := by
  refine ⟨by with_unfolding_all decide, ?_⟩
  exact (claim_C1_amended c1P c1WDF c1Map
    (by with_unfolding_all decide)).1

end Salla
